import Mathlib

/-!
Verification of the resilient ingestion and presentation pipeline of the
PBS jobs viewer (source module: `pu_qstat.py`).

The Python source is shallowly embedded: every definition below is a direct
translation of the corresponding Python function, working over `List Char`
(the model of Python `str`) and over explicit association lists (the model
of Python `dict`, with the last binding of a key winning, as in `dict`
construction).  Machine floats are modelled by an inductive type over `ℚ`
with explicit `inf`, `-inf` and `nan` values; Python exceptions are
modelled with `Except` over an explicit exception enumeration.

Modelling notes that apply throughout:
* Python `str.lower` is modelled by ASCII lowercasing (`Char.toLower`);
  the job and queue names involved are ASCII.
* Python `str.strip` family strips the ASCII whitespace characters
  space, tab, newline, carriage return, form feed and vertical tab.
* Naive `datetime` values are modelled in UTC (the source never attaches
  a timezone); `datetime.now()` is passed in explicitly where the source
  consults the wall clock.
-/

/-! ### Basic character and string utilities (models of Python str methods) -/

/-- Left brace character, kept as a named constant. -/
def lbrace : Char := Char.ofNat 123

/-- Right brace character, kept as a named constant. -/
def rbrace : Char := Char.ofNat 125

/-- ASCII whitespace, the character class of Python's default `str.strip`
and of the regex class `\s` over the inputs involved. -/
def isPyWs (c : Char) : Bool :=
  c = ' ' || c = '\t' || c = '\n' || c = '\x0d' || c = '\x0c' || c = '\x0b'

/-- Decimal digit test, the regex class `[0-9]`. -/
def isDigitCh (c : Char) : Bool := '0' ≤ c && c ≤ '9'

/-- Lower-case hexadecimal digit test, the regex class `[0-9a-f]`. -/
def isHexLower (c : Char) : Bool := isDigitCh c || ('a' ≤ c && c ≤ 'f')

/-- Model of Python `str.strip()` on a character list. -/
def pyStripChars (l : List Char) : List Char :=
  ((l.dropWhile isPyWs).reverse.dropWhile isPyWs).reverse

/-- Model of Python `str.rstrip()` on a character list. -/
def pyRStripChars (l : List Char) : List Char :=
  (l.reverse.dropWhile isPyWs).reverse

/-- Model of Python `str.lower()` (ASCII range, see the header note). -/
def pyLowerChars (l : List Char) : List Char := l.map Char.toLower

/-- Model of Python `str.lower()` on `String`. -/
def pyLower (s : String) : String := String.mk (pyLowerChars s.data)

/-- Boolean prefix test on character lists. -/
def prefChars : List Char → List Char → Bool
  | [], _ => true
  | _ :: _, [] => false
  | a :: as, b :: bs => (a = b) && prefChars as bs

/-- Model of the Python substring test `p in s` on character lists. -/
def substrChars (p : List Char) : List Char → Bool
  | [] => p.isEmpty
  | c :: cs => prefChars p (c :: cs) || substrChars p cs

/-- Model of `s.split('@')[0]`: the prefix of `s` before the first `@`. -/
def beforeAt (s : String) : String :=
  String.mk (s.data.takeWhile (fun c => c ≠ '@'))

/-! ### Routing queue expansion (`expand_routed_queues`, source lines 326-345)

The Python function lowers the root name after stripping a server
qualifier, builds a lowercased copy of the routing map, and then runs an
iterative depth-first traversal with a visited set.  The Python `set` of
visited queues is modelled as a `List String` to which elements are
prepended exactly when the source calls `visited.add`, so that the
multiplicity of visits stays observable; the LIFO stack
(`list.append`/`list.pop`) is modelled as a list popped at the head, with
newly pushed destinations therefore prepended in reverse order. -/

/-- Lookup in a Python dict modelled as an association list built left to
right; the last binding of a key wins, as in Python dict construction. -/
def dictGetStr : List (String × List String) → String → Option (List String)
  | [], _ => none
  | p :: t, k =>
    match dictGetStr t k with
    | some v => some v
    | none => if p.1 = k then some p.2 else none

/-- Every queue name mentioned by a routing map, keys and destinations. -/
def routeNodes (m : List (String × List String)) : List String :=
  m.foldr (fun p acc => p.1 :: (p.2 ++ acc)) []

/-- Upper bound for the length of any destination list of a routing map. -/
def maxDestLen (m : List (String × List String)) : Nat :=
  m.foldr (fun p acc => max p.2.length acc) 0

theorem dictGetStr_mem_key {m : List (String × List String)} {k : String}
    {v : List String} (h : dictGetStr m k = some v) : k ∈ routeNodes m := by
  induction m with
  | nil => simp [dictGetStr] at h
  | cons p t ih =>
    rw [dictGetStr] at h
    simp only [routeNodes, List.foldr_cons, List.mem_cons, List.mem_append]
    rcases hf : dictGetStr t k with _ | w
    · rw [hf] at h
      by_cases hk : p.1 = k
      · left; exact hk.symm
      · rw [if_neg hk] at h; simp at h
    · rw [hf] at h
      simp only [Option.some.injEq] at h
      subst h
      have : k ∈ routeNodes t := ih hf
      right; right
      simpa [routeNodes] using this

theorem dictGetStr_len_le {m : List (String × List String)} {k : String}
    {v : List String} (h : dictGetStr m k = some v) :
    v.length ≤ maxDestLen m := by
  induction m with
  | nil => simp [dictGetStr] at h
  | cons p t ih =>
    rw [dictGetStr] at h
    simp only [maxDestLen, List.foldr_cons]
    rcases hf : dictGetStr t k with _ | w
    · rw [hf] at h
      by_cases hk : p.1 = k
      · rw [if_pos hk] at h
        simp only [Option.some.injEq] at h
        subst h
        exact le_max_of_le_left (le_refl _)
      · rw [if_neg hk] at h; simp at h
    · rw [hf] at h
      simp only [Option.some.injEq] at h
      subst h
      exact le_max_of_le_right (ih hf)

theorem dictGetStr_none_of_not_mem {m : List (String × List String)}
    {k : String} (h : k ∉ routeNodes m) : dictGetStr m k = none := by
  rcases hd : dictGetStr m k with _ | v
  · rfl
  · exact absurd (dictGetStr_mem_key hd) h

/-- Termination measure of the `while stack:` loop of
`expand_routed_queues`: every iteration strictly decreases it. -/
def expMeasure (m : List (String × List String))
    (visited stack : List String) : Nat :=
  ((routeNodes m).toFinset \ visited.toFinset).card * (maxDestLen m + 2) +
    stack.length

/-- Depth-first worklist loop of `expand_routed_queues` (the Python
`while stack:` loop).  `visited` collects queues in reverse visit order;
the head of `stack` is the Python stack top.  The `fuel` argument bounds
the number of loop iterations; `expMeasure` strictly decreases at every
iteration (`expMeasure_step`), so the fuel passed by
`expand_routed_queues` is never exhausted and the function computes the
Python loop exactly (`goExpand_fuel_irrelevant`). -/
def goExpand (m : List (String × List String)) :
    Nat → List String → List String → List String
  | _, visited, [] => visited
  | 0, visited, _ :: _ => visited
  | fuel + 1, visited, q :: rest =>
    if q ∈ visited then goExpand m fuel visited rest
    else
      goExpand m fuel (q :: visited)
        ((((dictGetStr m q).getD []).filter
            (fun d => ¬ d ∈ (q :: visited))).reverse ++ rest)

theorem expMeasure_step (m : List (String × List String))
    (visited rest : List String) (q : String) (hq : q ∉ visited) :
    expMeasure m (q :: visited)
        ((((dictGetStr m q).getD []).filter
            (fun d => ¬ d ∈ (q :: visited))).reverse ++ rest) <
      expMeasure m visited (q :: rest) := by
  unfold expMeasure
  have hins : (q :: visited).toFinset = insert q visited.toFinset := by
    simp
  rw [hins]
  have herase : (routeNodes m).toFinset \ insert q visited.toFinset =
      ((routeNodes m).toFinset \ visited.toFinset).erase q := by
    ext x
    simp only [Finset.mem_sdiff, Finset.mem_insert, Finset.mem_erase]
    tauto
  rw [herase]
  have hlen : ((((dictGetStr m q).getD []).filter
      (fun d => ¬ d ∈ (q :: visited))).reverse ++ rest).length ≤
      ((dictGetStr m q).getD []).length + rest.length := by
    simp only [List.length_append, List.length_reverse]
    have := List.length_filter_le
      (fun d => ¬ d ∈ (q :: visited)) ((dictGetStr m q).getD [])
    omega
  by_cases hmem : q ∈ routeNodes m
  · have hqA : q ∈ (routeNodes m).toFinset \ visited.toFinset := by
      simp only [Finset.mem_sdiff, List.mem_toFinset]
      exact ⟨hmem, by simpa using hq⟩
    have hcard := Finset.card_erase_lt_of_mem hqA
    have hdlen : ((dictGetStr m q).getD []).length ≤ maxDestLen m := by
      rcases hd : dictGetStr m q with _ | v
      · simp [hd]
      · simpa [hd] using dictGetStr_len_le hd
    simp only [List.length_cons]
    nlinarith [hcard, hdlen, hlen]
  · have hnone : dictGetStr m q = none := dictGetStr_none_of_not_mem hmem
    have hcard : (((routeNodes m).toFinset \ visited.toFinset).erase q).card
        ≤ ((routeNodes m).toFinset \ visited.toFinset).card :=
      Finset.card_erase_le
    rw [hnone] at hlen ⊢
    simp only [Option.getD_none, List.length_nil, List.filter_nil,
      List.reverse_nil, List.nil_append, List.length_cons]
    nlinarith [hcard]

theorem goExpand_fuel_irrelevant (m : List (String × List String)) :
    ∀ f₁ f₂ visited stack, expMeasure m visited stack ≤ f₁ →
      expMeasure m visited stack ≤ f₂ →
      goExpand m f₁ visited stack = goExpand m f₂ visited stack := by
  intro f₁
  induction f₁ with
  | zero =>
    intro f₂ visited stack h₁ h₂
    cases stack with
    | nil => cases f₂ <;> rfl
    | cons q rest =>
      exfalso
      have : 1 ≤ expMeasure m visited (q :: rest) := by
        unfold expMeasure
        simp only [List.length_cons]
        omega
      omega
  | succ f ih =>
    intro f₂ visited stack h₁ h₂
    cases stack with
    | nil => cases f₂ <;> rfl
    | cons q rest =>
      have hstep : 1 ≤ expMeasure m visited (q :: rest) := by
        unfold expMeasure
        simp only [List.length_cons]
        omega
      cases f₂ with
      | zero => omega
      | succ g =>
        show goExpand m (f + 1) visited (q :: rest) =
          goExpand m (g + 1) visited (q :: rest)
        rw [goExpand, goExpand]
        by_cases hq : q ∈ visited
        · simp only [hq, if_true]
          have hm : expMeasure m visited rest + 1 =
              expMeasure m visited (q :: rest) := by
            unfold expMeasure
            simp only [List.length_cons]
            omega
          exact ih g visited rest (by omega) (by omega)
        · simp only [hq, if_false]
          have hm := expMeasure_step m visited rest q hq
          exact ih g _ _ (by omega) (by omega)

/-- Model of `expand_routed_queues(root_queue, routing_map)`
(source lines 326-345): normalize the root, return the empty set for a
blank root, otherwise lowercase the map and run the traversal, giving the
loop exactly as much fuel as its termination measure requires. -/
def expand_routed_queues (root_queue : String)
    (routing_map : List (String × List String)) : List String :=
  let root := pyLower (beforeAt root_queue)
  if root = "" then []
  else
    let lower_map := routing_map.map
      (fun p => (pyLower p.1, p.2.map pyLower))
    goExpand lower_map (expMeasure lower_map [] [root]) [] [root]

/-- Normalized root used by `expand_routed_queues`:
`(root_queue or '').split('@')[0].lower()`. -/
def normRoot (root_queue : String) : String := pyLower (beforeAt root_queue)

theorem goExpand_visited_subset (m : List (String × List String)) :
    ∀ fuel visited stack, visited ⊆ goExpand m fuel visited stack := by
  intro fuel
  induction fuel with
  | zero =>
    intro visited stack
    cases stack <;> simp [goExpand]
  | succ f ih =>
    intro visited stack
    cases stack with
    | nil => simp [goExpand]
    | cons q rest =>
      rw [goExpand]
      by_cases hq : q ∈ visited
      · simp only [hq, if_true]; exact ih visited rest
      · simp only [hq, if_false]
        intro x hx
        exact ih _ _ (List.mem_cons_of_mem _ hx)

theorem goExpand_stack_subset (m : List (String × List String)) :
    ∀ fuel visited stack, expMeasure m visited stack ≤ fuel →
      stack ⊆ goExpand m fuel visited stack := by
  intro fuel
  induction fuel with
  | zero =>
    intro visited stack h
    cases stack with
    | nil => simp
    | cons q rest =>
      exfalso
      have : 1 ≤ expMeasure m visited (q :: rest) := by
        unfold expMeasure
        simp only [List.length_cons]
        omega
      omega
  | succ f ih =>
    intro visited stack h
    cases stack with
    | nil => simp
    | cons q rest =>
      rw [goExpand]
      by_cases hq : q ∈ visited
      · simp only [hq, if_true]
        intro x hx
        rcases List.mem_cons.1 hx with hx | hx
        · subst hx; exact goExpand_visited_subset m f visited rest hq
        · have hm : expMeasure m visited rest + 1 =
              expMeasure m visited (q :: rest) := by
            unfold expMeasure
            simp only [List.length_cons]
            omega
          exact ih visited rest (by omega) hx
      · simp only [hq, if_false]
        intro x hx
        have hm := expMeasure_step m visited rest q hq
        rcases List.mem_cons.1 hx with hx | hx
        · subst hx
          exact goExpand_visited_subset m f _ _ (List.mem_cons_self _ _)
        · exact ih _ _ (by omega) (List.mem_append_right _ hx)

theorem goExpand_nodup (m : List (String × List String)) :
    ∀ fuel visited stack, visited.Nodup →
      (goExpand m fuel visited stack).Nodup := by
  intro fuel
  induction fuel with
  | zero =>
    intro visited stack h
    cases stack <;> simpa [goExpand] using h
  | succ f ih =>
    intro visited stack h
    cases stack with
    | nil => simpa [goExpand] using h
    | cons q rest =>
      rw [goExpand]
      by_cases hq : q ∈ visited
      · simp only [hq, if_true]; exact ih visited rest h
      · simp only [hq, if_false]
        exact ih _ _ (List.nodup_cons.2 ⟨hq, h⟩)

theorem expand_routed_queues_mem_root (root_queue : String)
    (routing_map : List (String × List String))
    (h : normRoot root_queue ≠ "") :
    normRoot root_queue ∈ expand_routed_queues root_queue routing_map := by
  unfold expand_routed_queues
  simp only [normRoot] at h ⊢
  rw [if_neg h]
  exact goExpand_stack_subset _ _ _ _ (le_refl _) (List.mem_singleton.2 rfl)

theorem expand_routed_queues_nodup (root_queue : String)
    (routing_map : List (String × List String)) :
    (expand_routed_queues root_queue routing_map).Nodup := by
  unfold expand_routed_queues
  by_cases h : pyLower (beforeAt root_queue) = ""
  · simp [h]
  · rw [if_neg h]
    exact goExpand_nodup _ _ _ _ List.nodup_nil

theorem expand_routed_queues_singleton (root_queue : String)
    (routing_map : List (String × List String))
    (h : normRoot root_queue ≠ "")
    (habs : dictGetStr (routing_map.map
      (fun p => (pyLower p.1, p.2.map pyLower))) (normRoot root_queue) = none) :
    expand_routed_queues root_queue routing_map = [normRoot root_queue] := by
  unfold expand_routed_queues
  simp only [normRoot] at h habs ⊢
  rw [if_neg h]
  obtain ⟨k, hk⟩ : ∃ k, expMeasure (routing_map.map
      (fun p => (pyLower p.1, p.2.map pyLower))) []
      [pyLower (beforeAt root_queue)] = k + 1 := by
    refine ⟨((routeNodes (routing_map.map
      (fun p => (pyLower p.1, p.2.map pyLower)))).toFinset \
      (([] : List String)).toFinset).card *
      (maxDestLen (routing_map.map
        (fun p => (pyLower p.1, p.2.map pyLower))) + 2), ?_⟩
    unfold expMeasure
    simp
  rw [hk, goExpand]
  simp only [List.not_mem_nil, if_false, habs, Option.getD_none,
    List.filter_nil, List.reverse_nil, List.nil_append]
  cases k <;> rfl

/-! ### Queue filtering with routing expansion (`print_jobs`, lines 694-704
and 734-739)

When a queue filter is supplied, `print_jobs` expands it once through the
routing map; a job is kept exactly when its queue, lowercased, belongs to
the expanded set (falling back to a case-insensitive substring test when
the expansion came back empty).  The model below reproduces that retention
decision for one job queue name, taking the routing map (the result of
`build_routing_map`) as input, in the success path of the `try` block. -/

def queue_filter_keep (queue_filter : String)
    (routing_map : List (String × List String)) (queue : String) : Bool :=
  let expanded := expand_routed_queues queue_filter routing_map
  let expanded_queue_set : Option (List String) :=
    if expanded = [] then none else some expanded
  match expanded_queue_set with
  | some s => decide (pyLower queue ∈ s)
  | none => substrChars (pyLower queue_filter).data (pyLower queue).data

/-- Claim C8, counterexample: the claim states that `expand_routed_queues`
always returns a set including the (normalized) root itself, and returns
exactly the singleton of the root when the root is absent from the map.
For the root queue name `""` (absent from the map) the code instead
returns the empty set, which does not contain the normalized root. -/
theorem c8_counterexample_empty_root :
    expand_routed_queues "" [("a", ["b"])] = [] ∧
      ¬ ("" ∈ expand_routed_queues "" [("a", ["b"])]) := by decide

/-- Claim C8, amended: for every root queue name whose normalized form
(`split('@')[0].lower()`) is nonempty and every routing map — including
cyclic ones; `expand_routed_queues` is total by construction, so it
terminates on every input — the expansion visits each queue at most once
(the visited list is duplicate-free), contains the normalized root, and
equals exactly the singleton of the normalized root whenever the root has
no entry in the lowercased routing map. -/
theorem c8_expand_routed_queues_amended (root_queue : String)
    (routing_map : List (String × List String))
    (h : normRoot root_queue ≠ "") :
    normRoot root_queue ∈ expand_routed_queues root_queue routing_map ∧
    (expand_routed_queues root_queue routing_map).Nodup ∧
    (dictGetStr (routing_map.map
        (fun p => (pyLower p.1, p.2.map pyLower))) (normRoot root_queue) =
        none →
      expand_routed_queues root_queue routing_map = [normRoot root_queue]) :=
  ⟨expand_routed_queues_mem_root root_queue routing_map h,
   expand_routed_queues_nodup root_queue routing_map,
   fun habs => expand_routed_queues_singleton root_queue routing_map h habs⟩

/-- Witness for claim C8's amended theorem, instantiated on the cyclic
routing map a→b, b→a. -/
theorem c8_expand_routed_queues_amended_witness :
    normRoot "A" ≠ "" ∧
    (normRoot "A" ∈ expand_routed_queues "A" [("a", ["b"]), ("b", ["a"])] ∧
    (expand_routed_queues "A" [("a", ["b"]), ("b", ["a"])]).Nodup ∧
    (dictGetStr ([("a", ["b"]), ("b", ["a"])].map
        (fun p => (pyLower p.1, p.2.map pyLower))) (normRoot "A") = none →
      expand_routed_queues "A" [("a", ["b"]), ("b", ["a"])] =
        [normRoot "A"])) :=
  ⟨by decide,
   c8_expand_routed_queues_amended "A" [("a", ["b"]), ("b", ["a"])]
     (by decide)⟩

/-- Claim C4, counterexample: with routing queue `debug` destined to
`debug-scaling`, the claim states that filtering by `"debug-scaling"`
also returns jobs queued in `"debug"`; the code's retention test instead
drops such a job, because expansion only follows routing edges forward
from the filter name. -/
theorem c4_counterexample_reverse_direction :
    queue_filter_keep "debug-scaling" [("debug", ["debug-scaling"])]
      "debug" = false := by decide

/-- Claim C4, amended: when a queue filter with a nonempty normalized name
is supplied, the pipeline retains exactly the jobs whose lowercased queue
lies in the forward routing closure of the filter name: jobs in downstream
destination queues are found when the caller names an upstream routing
queue, but not conversely. -/
theorem c4_queue_filter_amended (queue_filter : String)
    (routing_map : List (String × List String)) (queue : String)
    (h : normRoot queue_filter ≠ "") :
    queue_filter_keep queue_filter routing_map queue = true ↔
      pyLower queue ∈ expand_routed_queues queue_filter routing_map := by
  have hne : expand_routed_queues queue_filter routing_map ≠ [] := by
    intro hcon
    have := expand_routed_queues_mem_root queue_filter routing_map h
    rw [hcon] at this
    exact List.not_mem_nil _ this
  unfold queue_filter_keep
  simp only [if_neg hne]
  exact decide_eq_true_iff

/-- Witness for claim C4's amended theorem: filtering by routing queue
`"debug"` keeps a job queued in destination queue `"debug-scaling"`. -/
theorem c4_queue_filter_amended_witness :
    normRoot "debug" ≠ "" ∧
    queue_filter_keep "debug" [("debug", ["debug-scaling"])]
      "debug-scaling" = true :=
  ⟨by decide,
   (c4_queue_filter_amended "debug" [("debug", ["debug-scaling"])]
     "debug-scaling" (by decide)).mpr (by decide)⟩

/-! ### JSON repair state machine (`repair_qstat_json`, source lines 93-184)

The Python function splits the raw qstat text on newlines, runs a
line-oriented three-state machine collecting repaired lines and a repair
counter, rejoins the lines, and finally applies three global regex
substitutions.  Every regex of the source is implemented below as the
scanner it denotes on character lists (left-to-right, leftmost match,
greedy runs, scanning resuming after each replacement); the substitution
scanners carry a fuel argument, initialized to the text length, that only
decreases one character per step and is therefore never exhausted. -/

/-- Split on every newline, the model of `json_text.split('\n')`. -/
def splitNlChars : List Char → List (List Char)
  | [] => [[]]
  | c :: cs =>
    let r := splitNlChars cs
    if c = '\n' then [] :: r
    else
      match r with
      | [] => [[c]]
      | h :: t => (c :: h) :: t

/-- Rejoin lines with newlines, the model of `'\n'.join(lines)`. -/
def joinNlChars : List (List Char) → List Char
  | [] => []
  | [l] => l
  | l :: ls => l ++ '\n' :: joinNlChars ls

/-- Match of the anchored regex for the container opening,
`^"Jobs"\s*:\s*` followed by a left brace (source line 119), applied to
the stripped line. -/
def matchJobsStart (l : List Char) : Bool :=
  if prefChars ("\"Jobs\"".data) l then
    match (l.drop 6).dropWhile isPyWs with
    | c :: r =>
      if c = ':' then
        match r.dropWhile isPyWs with
        | d :: _ => d = lbrace
        | [] => false
      else false
    | [] => false
  else false

/-- Match of the anchored record-start regex `^"[0-9]+\.`
(source lines 132 and 153), applied to the stripped line. -/
def matchJobStart : List Char → Bool
  | '"' :: rest =>
    (!(rest.takeWhile isDigitCh).isEmpty) &&
      (match rest.drop (rest.takeWhile isDigitCh).length with
       | '.' :: _ => true
       | _ => false)
  | _ => false

/-- Test of `re.search(r',\s*$', line)` (source line 160): the last
non-whitespace character of the line is a comma. -/
def endsCommaWs (l : List Char) : Bool :=
  match l.reverse.dropWhile isPyWs with
  | c :: _ => c = ','
  | [] => false

/-- Bounded lookahead of source lines 151-157: scan at most four
following lines for a record start, stopping early at a line that strips
to a single closing brace. -/
def lookNextJob : Nat → List (List Char) → Bool
  | 0, _ => false
  | _, [] => false
  | n + 1, l :: rest =>
    if matchJobStart (pyStripChars l) then true
    else if pyStripChars l = [rbrace] then false
    else lookNextJob n rest

/-- States of the repair machine (source lines 108-110). -/
inductive RState where
  | outsideJobs
  | insideJobs
  | insideJob
deriving DecidableEq

/-- Closing-brace-plus-separator line that source line 135 would emit. -/
def synthCloseLine : List Char := List.replicate 8 ' ' ++ [rbrace, ',']

/-- Line loop of `repair_qstat_json` (source lines 115-169), returning
the repaired lines and the repair count.  The branch order reproduces the
source exactly; in particular the condition of source line 134 is kept
verbatim: it tests `state == INSIDE_JOB` under the already established
`state == INSIDE_JOBS` of line 132, so it compares the two distinct
states `insideJobs` and `insideJob` and can never hold. -/
def repairGo (state : RState) (level : Int) :
    List (List Char) → List (List Char) × Nat
  | [] => ([], 0)
  | line :: rest =>
    let stripped := pyStripChars line
    if matchJobsStart stripped then
      let r := repairGo RState.insideJobs 0 rest
      (line :: r.1, r.2)
    else if state = RState.insideJobs ∧ stripped = [rbrace] then
      let r := repairGo RState.outsideJobs level rest
      (line :: r.1, r.2)
    else if state = RState.insideJobs ∧ matchJobStart stripped then
      if RState.insideJobs = RState.insideJob ∧ level > 0 then
        let r := repairGo RState.insideJob 0 rest
        (synthCloseLine :: line :: r.1, r.2 + 1)
      else
        let r := repairGo RState.insideJob 0 rest
        (line :: r.1, r.2)
    else if state = RState.insideJob then
      let level2 := level + (line.count lbrace : Int) - (line.count rbrace : Int)
      if level2 = 0 then
        if lookNextJob 4 rest ∧ ¬ endsCommaWs line = true then
          let r := repairGo RState.insideJobs level2 rest
          ((pyRStripChars line ++ [',']) :: r.1, r.2 + 1)
        else
          let r := repairGo RState.insideJobs level2 rest
          (line :: r.1, r.2)
      else
        let r := repairGo RState.insideJob level2 rest
        (line :: r.1, r.2)
    else
      let r := repairGo state level rest
      (line :: r.1, r.2)

/-- Scanner of `re.sub(r':([0-9a-f]{32,})', r':"\1"', text)`
(source line 178): at each colon take the maximal lower-hex run and quote
it when it has at least 32 characters. -/
def subHexF : Nat → List Char → List Char
  | _, [] => []
  | 0, l => l
  | f + 1, c :: rest =>
    if c = ':' then
      let run := rest.takeWhile isHexLower
      if 32 ≤ run.length then
        ':' :: '"' :: (run ++ ('"' :: subHexF f (rest.drop run.length)))
      else c :: subHexF f rest
    else c :: subHexF f rest

/-- Scanner of `re.sub(r':([0-9]{10,})', r':"\1"', text)`
(source line 179). -/
def subDigitsF : Nat → List Char → List Char
  | _, [] => []
  | 0, l => l
  | f + 1, c :: rest =>
    if c = ':' then
      let run := rest.takeWhile isDigitCh
      if 10 ≤ run.length then
        ':' :: '"' :: (run ++ ('"' :: subDigitsF f (rest.drop run.length)))
      else c :: subDigitsF f rest
    else c :: subDigitsF f rest

/-- Scanner of `re.sub(r',(\s*[}\]])', r'\1', text)` (source line 182):
drop a comma whose next non-whitespace character is a closing brace or
bracket, resuming after that bracket. -/
def subCommaCloseF : Nat → List Char → List Char
  | _, [] => []
  | 0, l => l
  | f + 1, c :: rest =>
    if c = ',' then
      let run := rest.takeWhile isPyWs
      match rest.drop run.length with
      | b :: after =>
        if b = rbrace ∨ b = ']' then run ++ (b :: subCommaCloseF f after)
        else ',' :: subCommaCloseF f rest
      | [] => ',' :: subCommaCloseF f rest
    else c :: subCommaCloseF f rest

/-- Model of `repair_qstat_json(json_text)` (source lines 93-184):
line-machine pass, rejoin, then the three global substitutions in source
order. -/
def repair_qstat_json (json_text : String) : String :=
  let lines := splitNlChars json_text.data
  let repaired := (repairGo RState.outsideJobs 0 lines).1
  let repaired_text := joinNlChars repaired
  let t1 := subHexF repaired_text.length repaired_text
  let t2 := subDigitsF t1.length t1
  String.mk (subCommaCloseF t2.length t2)

/-- Number of repairs the line machine applied (the source's `fix_count`
after the loop of lines 115-169). -/
def repairFixCount (json_text : String) : Nat :=
  (repairGo RState.outsideJobs 0 (splitNlChars json_text.data)).2

/-- Raw qstat text of the C1 scenario: the record of job `111.x` is
missing its closing brace and is followed immediately by the record of
job `112.x`. -/
def c1BadText : String :=
  "\x7b\n\"Jobs\": \x7b\n    \"111.x\": \x7b\n        \"job_state\": \"R\",\n    \"112.x\": \x7b\n        \"job_state\": \"Q\"\n    \x7d\n\x7d\n\x7d"

set_option maxRecDepth 40000 in
/-- Claim C1: the claim states that for a text with exactly one
unterminated record object before the next record-start line the repair
synthesizes exactly one closing-brace-plus-separator line and the result
parses as JSON with one job per record-start line.  On the claim's own
scenario (job `111.x` unterminated, followed by job `112.x`) the code
instead returns its input unchanged: no repair is counted, the
closing-brace line is never emitted (the guard of source line 134 tests
`state == INSIDE_JOB` inside the `state == INSIDE_JOBS` branch and can
never hold), and the output still has four opening but only three closing
braces, so it cannot parse as JSON. -/
theorem c1_repair_misses_unterminated_record :
    repair_qstat_json c1BadText = c1BadText ∧
    repairFixCount c1BadText = 0 ∧
    ¬ synthCloseLine ∈ splitNlChars (repair_qstat_json c1BadText).data ∧
    (repair_qstat_json c1BadText).data.count lbrace = 4 ∧
    (repair_qstat_json c1BadText).data.count rbrace = 3 := by decide

/-! ### Canonical well-formed job-container text (for claim C7)

Shape of the pretty-printed container that `qstat -F json` emits and
that the spec calls "well-formed job-container text in the expected
structure": a root brace, the `"Jobs"` opening line, a sequence of job
blocks (job-id line, at least two attribute lines, closing line with a
separator between blocks), then the two closing braces.  The decidable
predicate `blockOK` captures the per-line facts this shape guarantees,
stated in exactly the form in which `repairGo` tests them. -/

/-- Four-space indent. -/
def sp4 : List Char := List.replicate 4 ' '

/-- Eight-space indent. -/
def sp8 : List Char := List.replicate 8 ' '

/-- The `"Jobs": ` opening line of the container. -/
def jobsOpenLine : List Char := sp4 ++ ("\"Jobs\": ".data ++ [lbrace])

/-- Record-start line for the job id `jid`. -/
def jobStartLineOf (jid : List Char) : List Char :=
  sp8 ++ '"' :: (jid ++ ['"', ':', ' ', lbrace])

/-- Record-closing line followed by the separator (between records). -/
def closeLineSep : List Char := sp8 ++ [rbrace, ',']

/-- Record-closing line of the final record. -/
def closeLineLast : List Char := sp8 ++ [rbrace]

/-- Closing lines of the container and of the root object. -/
def tailLines : List (List Char) := [sp4 ++ [rbrace], [rbrace]]

/-- Render one job block; `isLast` selects the closing line variant. -/
def renderBlock (isLast : Bool) (b : List Char × List (List Char)) :
    List (List Char) :=
  jobStartLineOf b.1 ::
    (b.2 ++ [if isLast then closeLineLast else closeLineSep])

/-- Render a sequence of job blocks. -/
def renderBlocks : List (List Char × List (List Char)) → List (List Char)
  | [] => []
  | [b] => renderBlock true b
  | b :: bs => renderBlock false b ++ renderBlocks bs

/-- All lines of a canonical job-container text. -/
def renderLines (blocks : List (List Char × List (List Char))) :
    List (List Char) :=
  [lbrace] :: jobsOpenLine :: (renderBlocks blocks ++ tailLines)

/-- Canonical job-container text as a string. -/
def renderText (blocks : List (List Char × List (List Char))) : String :=
  String.mk (joinNlChars (renderLines blocks))

/-- Lines that every branch of the repair machine passes through
unchanged outside of the `INSIDE_JOB` state. -/
def inertLine (l : List Char) : Bool :=
  !matchJobsStart (pyStripChars l) &&
  !(pyStripChars l == [rbrace]) &&
  !matchJobStart (pyStripChars l)

/-- Attribute lines of a canonical job block: inert, brace-free and
newline-free. -/
def attrOK (l : List Char) : Bool :=
  inertLine l && (l.count lbrace == 0) && (l.count rbrace == 0) &&
    (l.count '\n' == 0)

/-- Job ids of a canonical job block, stated directly on the rendered
record-start line: it strip-matches the record-start pattern, matches
neither the container opening nor a bare closing brace, and is
newline-free. -/
def jobLineOK (jid : List Char) : Bool :=
  !matchJobsStart (pyStripChars (jobStartLineOf jid)) &&
  !(pyStripChars (jobStartLineOf jid) == [rbrace]) &&
  matchJobStart (pyStripChars (jobStartLineOf jid)) &&
  ((jobStartLineOf jid).count '\n' == 0)

/-- Canonical well-formedness of one job block: a good record-start line
and at least two attribute lines, the first of which carries its
separator comma. -/
def blockOK (b : List Char × List (List Char)) : Bool :=
  jobLineOK b.1 &&
  (match b.2 with
   | a1 :: _ :: _ => endsCommaWs a1
   | _ => false) &&
  b.2.all attrOK

/-- State in which the machine leaves a canonical block sequence: the
final block's closing line strips to a bare brace and flips the machine
to `outsideJobs`. -/
def stateAfterBlocks (blocks : List (List Char × List (List Char))) :
    RState :=
  if blocks.isEmpty then RState.insideJobs else RState.outsideJobs

theorem inert_conds {l : List Char} (h : inertLine l = true) :
    matchJobsStart (pyStripChars l) = false ∧
    pyStripChars l ≠ [rbrace] ∧
    matchJobStart (pyStripChars l) = false := by
  simp only [inertLine, Bool.and_eq_true, Bool.not_eq_true',
    beq_eq_false_iff_ne, ne_eq] at h
  exact ⟨h.1.1, h.1.2, h.2⟩

theorem attr_conds {l : List Char} (h : attrOK l = true) :
    inertLine l = true ∧ l.count lbrace = 0 ∧ l.count rbrace = 0 ∧
    '\n' ∉ l := by
  simp only [attrOK, Bool.and_eq_true, beq_iff_eq] at h
  exact ⟨h.1.1.1, h.1.1.2, h.1.2, List.count_eq_zero.1 h.2⟩

theorem repairGo_step_inert (S : RState) (hS : S ≠ RState.insideJob)
    (l : List Char) (h : inertLine l = true) (lvl : Int)
    (rest : List (List Char)) :
    repairGo S lvl (l :: rest) =
      ((l :: (repairGo S lvl rest).1), (repairGo S lvl rest).2) := by
  obtain ⟨h1, h2, h3⟩ := inert_conds h
  simp [repairGo, h1, h2, h3, hS]

theorem repairGo_append_inert (S : RState) (hS : S ≠ RState.insideJob)
    (ls : List (List Char)) (h : ∀ l ∈ ls, inertLine l = true) (lvl : Int)
    (rest : List (List Char)) :
    repairGo S lvl (ls ++ rest) =
      ((ls ++ (repairGo S lvl rest).1), (repairGo S lvl rest).2) := by
  induction ls with
  | nil => simp
  | cons l ls ih =>
    rw [List.cons_append, repairGo_step_inert S hS l (h l (by simp)) lvl]
    rw [ih (fun x hx => h x (by simp [hx]))]
    simp

theorem repairGo_step_jobstart (l : List Char)
    (h1 : matchJobsStart (pyStripChars l) = false)
    (h2 : pyStripChars l ≠ [rbrace])
    (h3 : matchJobStart (pyStripChars l) = true) (lvl : Int)
    (rest : List (List Char)) :
    repairGo RState.insideJobs lvl (l :: rest) =
      ((l :: (repairGo RState.insideJob 0 rest).1),
        (repairGo RState.insideJob 0 rest).2) := by
  simp [repairGo, h1, h2, h3]

theorem repairGo_step_firstattr (l : List Char) (h : attrOK l = true)
    (hcomma : endsCommaWs l = true) (rest : List (List Char)) :
    repairGo RState.insideJob 0 (l :: rest) =
      ((l :: (repairGo RState.insideJobs 0 rest).1),
        (repairGo RState.insideJobs 0 rest).2) := by
  obtain ⟨hi, hc1, hc2, _⟩ := attr_conds h
  obtain ⟨h1, h2, h3⟩ := inert_conds hi
  simp [repairGo, h1, h2, h3, hc1, hc2, hcomma]

theorem repairGo_step_closelast (lvl : Int) (rest : List (List Char)) :
    repairGo RState.insideJobs lvl (closeLineLast :: rest) =
      ((closeLineLast :: (repairGo RState.outsideJobs lvl rest).1),
        (repairGo RState.outsideJobs lvl rest).2) := by
  have h1 : matchJobsStart (pyStripChars closeLineLast) = false := by decide
  have h2 : pyStripChars closeLineLast = [rbrace] := by decide
  have h3 : matchJobsStart [rbrace] = false := by decide
  simp [repairGo, h1, h2, h3]

theorem repairGo_step_jobsopen (S : RState) (lvl : Int)
    (rest : List (List Char)) :
    repairGo S lvl (jobsOpenLine :: rest) =
      ((jobsOpenLine :: (repairGo RState.insideJobs 0 rest).1),
        (repairGo RState.insideJobs 0 rest).2) := by
  have h1 : matchJobsStart (pyStripChars jobsOpenLine) = true := by decide
  simp [repairGo, h1]

theorem repairGo_block (b : List Char × List (List Char))
    (hb : blockOK b = true) (isLast : Bool) (rest : List (List Char)) :
    repairGo RState.insideJobs 0 (renderBlock isLast b ++ rest) =
      ((renderBlock isLast b ++
          (repairGo (if isLast then RState.outsideJobs else
            RState.insideJobs) 0 rest).1),
        (repairGo (if isLast then RState.outsideJobs else
          RState.insideJobs) 0 rest).2) := by
  obtain ⟨jid, attrs⟩ := b
  simp only [blockOK, Bool.and_eq_true] at hb
  obtain ⟨⟨hjl, hfst⟩, hall⟩ := hb
  rcases attrs with _ | ⟨a1, attrs2⟩
  · simp at hfst
  rcases attrs2 with _ | ⟨a2, arest⟩
  · simp at hfst
  simp only [jobLineOK, Bool.and_eq_true, Bool.not_eq_true',
    beq_eq_false_iff_ne, ne_eq] at hjl
  obtain ⟨⟨⟨hj1, hj2⟩, hj3⟩, _⟩ := hjl
  have hall' : ∀ l ∈ (a2 :: arest), inertLine l = true := by
    intro x hx
    have : attrOK x = true := by
      rw [List.all_eq_true] at hall
      exact hall x (by simp [hx])
    exact (attr_conds this).1
  have ha1 : attrOK a1 = true := by
    rw [List.all_eq_true] at hall
    exact hall a1 (by simp)
  have hfst' : endsCommaWs a1 = true := hfst
  simp only [renderBlock, List.cons_append, List.append_assoc,
    List.singleton_append, List.nil_append]
  rw [repairGo_step_jobstart _ hj1 hj2 hj3]
  rw [repairGo_step_firstattr a1 ha1 hfst']
  rw [show a2 :: (arest ++
      (if isLast = true then closeLineLast else closeLineSep) :: rest) =
    (a2 :: arest) ++
      ((if isLast = true then closeLineLast else closeLineSep) :: rest)
    from rfl]
  rw [repairGo_append_inert RState.insideJobs (by simp) (a2 :: arest)
    hall']
  cases isLast with
  | true =>
    simp only [eq_self_iff_true, if_true]
    rw [repairGo_step_closelast]
    simp [List.append_assoc]
  | false =>
    simp only [Bool.false_eq_true, if_false]
    have hin : inertLine closeLineSep = true := by decide
    rw [repairGo_step_inert RState.insideJobs (by simp) _ hin]
    simp [List.append_assoc]

theorem repairGo_blocks (blocks : List (List Char × List (List Char)))
    (h : blocks.all blockOK = true) (rest : List (List Char)) :
    repairGo RState.insideJobs 0 (renderBlocks blocks ++ rest) =
      ((renderBlocks blocks ++
          (repairGo (stateAfterBlocks blocks) 0 rest).1),
        (repairGo (stateAfterBlocks blocks) 0 rest).2) := by
  induction blocks with
  | nil => simp [renderBlocks, stateAfterBlocks]
  | cons b bs ih =>
    rw [List.all_cons, Bool.and_eq_true] at h
    cases bs with
    | nil =>
      show repairGo RState.insideJobs 0 (renderBlock true b ++ rest) = _
      rw [repairGo_block b h.1 true rest]
      simp [stateAfterBlocks, renderBlocks]
    | cons b2 bs2 =>
      show repairGo RState.insideJobs 0
        ((renderBlock false b ++ renderBlocks (b2 :: bs2)) ++ rest) = _
      rw [List.append_assoc]
      rw [repairGo_block b h.1 false]
      rw [if_neg (by simp)]
      rw [ih h.2]
      simp [stateAfterBlocks, renderBlocks, List.append_assoc]

theorem repairGo_tail_insideJobs :
    repairGo RState.insideJobs 0 tailLines = (tailLines, 0) := by decide

theorem repairGo_tail_outsideJobs :
    repairGo RState.outsideJobs 0 tailLines = (tailLines, 0) := by decide

theorem repairGo_renderLines (blocks : List (List Char × List (List Char)))
    (h : blocks.all blockOK = true) :
    repairGo RState.outsideJobs 0 (renderLines blocks) =
      (renderLines blocks, 0) := by
  unfold renderLines
  have hroot : inertLine [lbrace] = true := by decide
  rw [repairGo_step_inert RState.outsideJobs (by simp) [lbrace] hroot]
  rw [repairGo_step_jobsopen]
  rw [repairGo_blocks blocks h tailLines]
  rcases hs : stateAfterBlocks blocks with _ | _ | _
  · rw [repairGo_tail_outsideJobs]
  · rw [repairGo_tail_insideJobs]
  · exfalso
    unfold stateAfterBlocks at hs
    by_cases hb : blocks.isEmpty <;> simp [hb] at hs

theorem splitNl_no_nl {l : List Char} (h : '\n' ∉ l) :
    splitNlChars l = [l] := by
  induction l with
  | nil => rfl
  | cons c cs ih =>
    have hc : c ≠ '\n' := fun hc => h (by simp [hc])
    have hcs : '\n' ∉ cs := fun hm => h (by simp [hm])
    rw [splitNlChars]
    simp [hc, ih hcs]

theorem splitNl_append_nl {l : List Char} (r : List Char)
    (h : '\n' ∉ l) :
    splitNlChars (l ++ '\n' :: r) = l :: splitNlChars r := by
  induction l with
  | nil =>
    rw [List.nil_append, splitNlChars]
    simp
  | cons c cs ih =>
    have hc : c ≠ '\n' := fun hc => h (by simp [hc])
    have hcs : '\n' ∉ cs := fun hm => h (by simp [hm])
    rw [List.cons_append, splitNlChars]
    rw [ih hcs]
    simp [hc]

theorem splitNl_joinNl :
    ∀ ls : List (List Char), ls ≠ [] → (∀ l ∈ ls, '\n' ∉ l) →
      splitNlChars (joinNlChars ls) = ls := by
  intro ls
  induction ls with
  | nil => intro h; exact absurd rfl h
  | cons l ls ih =>
    intro _ h
    cases ls with
    | nil =>
      show splitNlChars (joinNlChars [l]) = [l]
      rw [joinNlChars]
      exact splitNl_no_nl (h l (by simp))
    | cons l2 ls2 =>
      show splitNlChars (l ++ '\n' :: joinNlChars (l2 :: ls2)) = _
      rw [splitNl_append_nl _ (h l (by simp))]
      rw [ih (by simp) (fun x hx => h x (by simp [hx]))]

theorem renderBlocks_no_nl (blocks : List (List Char × List (List Char)))
    (h : blocks.all blockOK = true) :
    ∀ l ∈ renderBlocks blocks, '\n' ∉ l := by
  induction blocks with
  | nil => simp [renderBlocks]
  | cons b bs ih =>
    rw [List.all_cons, Bool.and_eq_true] at h
    have hb := h.1
    simp only [blockOK, Bool.and_eq_true] at hb
    obtain ⟨⟨hjl, _⟩, hall⟩ := hb
    simp only [jobLineOK, Bool.and_eq_true, beq_iff_eq] at hjl
    have hjob : '\n' ∉ jobStartLineOf b.1 :=
      List.count_eq_zero.1 hjl.2
    have hattr : ∀ a ∈ b.2, '\n' ∉ a := by
      intro a ha
      rw [List.all_eq_true] at hall
      exact (attr_conds (hall a (by simp [ha]))).2.2.2
    have hclose : ∀ isLast : Bool,
        '\n' ∉ (if isLast then closeLineLast else closeLineSep) := by
      intro isLast
      cases isLast <;> decide
    have hone : ∀ isLast : Bool, ∀ l ∈ renderBlock isLast b, '\n' ∉ l := by
      intro isLast l hl
      rcases List.mem_cons.1 hl with hl | hl
      · subst hl; exact hjob
      · rcases List.mem_append.1 hl with hl | hl
        · exact hattr l hl
        · rcases List.mem_singleton.1 hl with hl
          subst hl; exact hclose isLast
    cases bs with
    | nil =>
      intro l hl
      exact hone true l hl
    | cons b2 bs2 =>
      intro l hl
      rcases List.mem_append.1 hl with hl | hl
      · exact hone false l hl
      · exact ih h.2 l hl

theorem renderLines_no_nl (blocks : List (List Char × List (List Char)))
    (h : blocks.all blockOK = true) :
    ∀ l ∈ renderLines blocks, '\n' ∉ l := by
  intro l hl
  rcases List.mem_cons.1 hl with hl | hl
  · subst hl; decide
  rcases List.mem_cons.1 hl with hl | hl
  · subst hl; decide
  rcases List.mem_append.1 hl with hl | hl
  · exact renderBlocks_no_nl blocks h l hl
  · rcases List.mem_cons.1 hl with hl | hl
    · subst hl; decide
    rcases List.mem_cons.1 hl with hl | hl
    · subst hl; decide
    · simp at hl

set_option maxRecDepth 40000 in
/-- Claim C7, counterexample: the block below renders to well-formed
canonical job-container text (it satisfies the canonical shape predicate,
and its rendering is valid JSON: job `1.srv` with a string attribute and
a numeric `qtime` attribute), yet `repair_qstat_json` changes the text:
the global fix of source line 179 wraps the ten-digit value of
`"qtime":1234567890` in quotes. -/
theorem c7_counterexample_long_number :
    [(("1.srv".data : List Char),
       (["            \"job_state\": \"R\",".data,
         "            \"qtime\":1234567890".data] :
         List (List Char)))].all blockOK = true ∧
    repair_qstat_json (renderText
      [(("1.srv".data : List Char),
        (["            \"job_state\": \"R\",".data,
          "            \"qtime\":1234567890".data] :
          List (List Char)))]) ≠
      renderText
        [(("1.srv".data : List Char),
          (["            \"job_state\": \"R\",".data,
            "            \"qtime\":1234567890".data] :
            List (List Char)))] := by decide

/-- Claim C7, amended: for every canonical well-formed job-container text
the line-machine pass of `repair_qstat_json` is the identity, hence
`repair_qstat_json` returns its input character for character provided
the text additionally contains none of the byte patterns rewritten by the
three global fixes of source lines 178-182 (a colon followed by a long
bare hex or numeric token, or a separator directly preceding a closing
brace or bracket; well-formed JSON can contain the former, as the
counterexample shows, while the latter never occurs in it). -/
theorem c7_repair_identity_amended
    (blocks : List (List Char × List (List Char)))
    (hwf : blocks.all blockOK = true)
    (hhex : subHexF (joinNlChars (renderLines blocks)).length
      (joinNlChars (renderLines blocks)) =
        joinNlChars (renderLines blocks))
    (hdig : subDigitsF (joinNlChars (renderLines blocks)).length
      (joinNlChars (renderLines blocks)) =
        joinNlChars (renderLines blocks))
    (hcomma : subCommaCloseF (joinNlChars (renderLines blocks)).length
      (joinNlChars (renderLines blocks)) =
        joinNlChars (renderLines blocks)) :
    repair_qstat_json (renderText blocks) = renderText blocks := by
  show String.mk _ = _
  have hdata : (renderText blocks).data = joinNlChars (renderLines blocks) :=
    rfl
  rw [hdata]
  rw [splitNl_joinNl (renderLines blocks) (by simp [renderLines])
    (renderLines_no_nl blocks hwf)]
  rw [repairGo_renderLines blocks hwf]
  rw [hhex, hdig, hcomma]
  rfl

/-- Blocks of the witness text for claim C7's amended theorem: two jobs
with two attributes each. -/
def c7GoodBlocks : List (List Char × List (List Char)) :=
  [("111.x".data,
    ["            \"job_state\": \"R\",".data,
     "            \"queue\": \"debug\"".data]),
   ("112.x".data,
    ["            \"job_state\": \"Q\",".data,
     "            \"queue\": \"prod\"".data])]

set_option maxRecDepth 40000 in
/-- Witness for claim C7's amended theorem on a two-job canonical text. -/
theorem c7_repair_identity_amended_witness :
    repair_qstat_json (renderText c7GoodBlocks) = renderText c7GoodBlocks :=
  c7_repair_identity_amended c7GoodBlocks (by decide) (by decide)
    (by decide) (by decide)

/-! ### Python values, numbers and exceptions

`PyVal` models the JSON-derived Python values the job viewer manipulates
(strings, integers, nested dicts, `None`).  `PyNum` models Python floats:
a finite value is an exact fraction `num / (dpred + 1)` — exact rational
arithmetic in place of IEEE doubles, which is monotone and therefore
preserves every ordering fact used below — plus the special values
`inf`, `-inf` and `nan` with their Python comparison semantics.  `PyExc`
enumerates the exception classes the source raises or catches. -/

/-- Python exception classes appearing in the source. -/
inductive PyExc where
  | keyError
  | valueError
  | typeError
  | zeroDivisionError
  | indexError
  | nameError
  | attributeError
  | syntaxError
deriving DecidableEq

/-- Model of a Python float (see the section comment). -/
inductive PyNum where
  | fin (num : Int) (dpred : Nat)
  | pinf
  | ninf
  | nan
deriving DecidableEq

/-- Python `<` on floats; every comparison with `nan` is false. -/
def pyNumLt : PyNum → PyNum → Bool
  | .nan, _ => false
  | _, .nan => false
  | .fin a da, .fin b db => a * ((db : Int) + 1) < b * ((da : Int) + 1)
  | .fin _ _, .pinf => true
  | .fin _ _, .ninf => false
  | .pinf, _ => false
  | .ninf, .ninf => false
  | .ninf, _ => true

/-- Python `==` on floats; every comparison with `nan` is false. -/
def pyNumEqB : PyNum → PyNum → Bool
  | .fin a da, .fin b db => a * ((db : Int) + 1) = b * ((da : Int) + 1)
  | .pinf, .pinf => true
  | .ninf, .ninf => true
  | _, _ => false

/-- Model of the Python values flowing through the job pipeline. -/
inductive PyVal where
  | pynone : PyVal
  | pstr : String → PyVal
  | pint : Int → PyVal
  | pdict : List (String × PyVal) → PyVal

mutual

/-- Structural equality on `PyVal`, the model of Python `==` on these
values. -/
def pyValBeq : PyVal → PyVal → Bool
  | .pynone, .pynone => true
  | .pstr a, .pstr b => a == b
  | .pint a, .pint b => a == b
  | .pdict a, .pdict b => pyEntriesBeq a b
  | _, _ => false

/-- Structural equality on dict entry lists. -/
def pyEntriesBeq : List (String × PyVal) → List (String × PyVal) → Bool
  | [], [] => true
  | (k, v) :: r, (k2, v2) :: r2 =>
    k == k2 && pyValBeq v v2 && pyEntriesBeq r r2
  | _, _ => false

end

mutual

theorem pyValBeq_iff : ∀ a b, pyValBeq a b = true ↔ a = b
  | .pynone, .pynone => by simp [pyValBeq]
  | .pynone, .pstr _ => by simp [pyValBeq]
  | .pynone, .pint _ => by simp [pyValBeq]
  | .pynone, .pdict _ => by simp [pyValBeq]
  | .pstr _, .pynone => by simp [pyValBeq]
  | .pstr _, .pstr _ => by simp [pyValBeq]
  | .pstr _, .pint _ => by simp [pyValBeq]
  | .pstr _, .pdict _ => by simp [pyValBeq]
  | .pint _, .pynone => by simp [pyValBeq]
  | .pint _, .pstr _ => by simp [pyValBeq]
  | .pint _, .pint _ => by simp [pyValBeq]
  | .pint _, .pdict _ => by simp [pyValBeq]
  | .pdict _, .pynone => by simp [pyValBeq]
  | .pdict _, .pstr _ => by simp [pyValBeq]
  | .pdict _, .pint _ => by simp [pyValBeq]
  | .pdict a, .pdict b => by
      simp only [pyValBeq, pyEntriesBeq_iff a b, PyVal.pdict.injEq]

theorem pyEntriesBeq_iff : ∀ a b, pyEntriesBeq a b = true ↔ a = b
  | [], [] => by simp [pyEntriesBeq]
  | [], (_, _) :: _ => by simp [pyEntriesBeq]
  | (_, _) :: _, [] => by simp [pyEntriesBeq]
  | (k, v) :: r, (k2, v2) :: r2 => by
      simp only [pyEntriesBeq, Bool.and_eq_true, beq_iff_eq,
        pyValBeq_iff v v2, pyEntriesBeq_iff r r2, List.cons.injEq,
        Prod.mk.injEq]

end

instance : DecidableEq PyVal := fun a b =>
  decidable_of_iff _ (pyValBeq_iff a b)

/-- Single-quote character, kept as a named constant. -/
def squote : Char := Char.ofNat 39

mutual

/-- Model of Python `repr` on the values above (string escaping inside
`repr` of a string is not modelled; no claim involves it). -/
def pyReprOf : PyVal → List Char
  | .pynone => "None".data
  | .pstr s => squote :: (s.data ++ [squote])
  | .pint n => (toString n).data
  | .pdict entries => lbrace :: (pyReprEntries entries ++ [rbrace])

/-- Comma-separated `repr` of dict entries. -/
def pyReprEntries : List (String × PyVal) → List Char
  | [] => []
  | [(k, v)] => squote :: (k.data ++ [squote, ':', ' ']) ++ pyReprOf v
  | (k, v) :: rest =>
    squote :: (k.data ++ [squote, ':', ' ']) ++ pyReprOf v ++
      (',' :: ' ' :: pyReprEntries rest)

end

/-- Model of Python `str` on these values: a string is itself, anything
else renders as its `repr`. -/
def pyStrOf : PyVal → List Char
  | .pstr s => s.data
  | v => pyReprOf v

/-- Numeric value of a digit run. -/
def digitsToNat (l : List Char) : Nat :=
  l.foldl (fun acc c => 10 * acc + (c.toNat - 48)) 0

/-- Model of Python `int(s)` on a string: optional surrounding
whitespace, an optional sign, then one or more digits (digit-group
underscores are not modelled). -/
def pyIntOfChars (l0 : List Char) : Option Int :=
  let l := pyStripChars l0
  let sgnAndRest : Int × List Char :=
    match l with
    | '+' :: r => (1, r)
    | '-' :: r => (-1, r)
    | r => (1, r)
  let ds := sgnAndRest.2
  if ds ≠ [] ∧ ds.all isDigitCh then
    some (sgnAndRest.1 * (digitsToNat ds : Int))
  else none

/-- Ten to a natural power, by structural recursion. -/
def tenPow : Nat → Nat
  | 0 => 1
  | n + 1 => 10 * tenPow n

/-- Model of Python `float(s)` on a string: optional surrounding
whitespace and sign, then `inf`/`infinity`/`nan` (case-insensitive) or a
decimal literal `digits [. digits] [e[sign]digits]` with at least one
mantissa digit (digit-group underscores are not modelled). -/
def pyFloatOfChars (l0 : List Char) : Option PyNum :=
  let l := pyStripChars l0
  let sgnAndRest : Int × List Char :=
    match l with
    | '+' :: r => (1, r)
    | '-' :: r => (-1, r)
    | r => (1, r)
  let sgn := sgnAndRest.1
  let body := sgnAndRest.2
  let low := pyLowerChars body
  if low = "inf".data ∨ low = "infinity".data then
    some (if sgn = 1 then PyNum.pinf else PyNum.ninf)
  else if low = "nan".data then some PyNum.nan
  else
    let intD := body.takeWhile isDigitCh
    let r2 := body.drop intD.length
    let fracAndRest : List Char × List Char :=
      match r2 with
      | '.' :: r3 => (r3.takeWhile isDigitCh,
          (r3.drop (r3.takeWhile isDigitCh).length))
      | _ => ([], r2)
    let fracD := fracAndRest.1
    let r4 := fracAndRest.2
    if intD = [] ∧ fracD = [] then none
    else
      let expAndRest : Option (Int × List Char) :=
        match r4 with
        | 'e' :: r5 =>
          match r5 with
          | '+' :: r6 =>
            if r6 ≠ [] ∧ r6.all isDigitCh then
              some ((digitsToNat r6 : Int), []) else none
          | '-' :: r6 =>
            if r6 ≠ [] ∧ r6.all isDigitCh then
              some (-(digitsToNat r6 : Int), []) else none
          | r6 =>
            if r6 ≠ [] ∧ r6.all isDigitCh then
              some ((digitsToNat r6 : Int), []) else none
        | 'E' :: r5 =>
          match r5 with
          | '+' :: r6 =>
            if r6 ≠ [] ∧ r6.all isDigitCh then
              some ((digitsToNat r6 : Int), []) else none
          | '-' :: r6 =>
            if r6 ≠ [] ∧ r6.all isDigitCh then
              some (-(digitsToNat r6 : Int), []) else none
          | r6 =>
            if r6 ≠ [] ∧ r6.all isDigitCh then
              some ((digitsToNat r6 : Int), []) else none
        | [] => some (0, [])
        | _ => none
      match expAndRest with
      | none => none
      | some (e, _) =>
        let mant : Int := (digitsToNat (intD ++ fracD) : Int)
        let k := fracD.length
        let e2 := e - (k : Int)
        if 0 ≤ e2 then
          some (PyNum.fin (sgn * mant * (tenPow e2.toNat : Int)) 0)
        else
          some (PyNum.fin (sgn * mant) (tenPow (-e2).toNat - 1))

/-- Split on every occurrence of a separator character, the model of
Python `s.split(sep)` for a single-character separator. -/
def splitOnChars (sep : Char) : List Char → List (List Char)
  | [] => [[]]
  | c :: cs =>
    let r := splitOnChars sep cs
    if c = sep then [] :: r
    else
      match r with
      | [] => [[c]]
      | h :: t => (c :: h) :: t

/-- Model of `get_integers` composed into `string_time_to_seconds`
(source lines 347-356): split on `:` into exactly three parts — any
other number of parts raises `ValueError` from tuple unpacking — parse
each with `int`, and combine into seconds. -/
def string_time_to_seconds_chars (l : List Char) : Except PyExc Int :=
  match splitOnChars ':' l with
  | [h, m, s] =>
    match pyIntOfChars h, pyIntOfChars m, pyIntOfChars s with
    | some a, some b, some c => .ok (a * 3600 + b * 60 + c)
    | _, _, _ => .error .valueError
  | _ => .error .valueError

/-! ### Naive datetimes and PBS time parsing (`parse_pbs_time`, lines 42-59)

`PDateTime` models a naive `datetime`.  `strptime` for the two PBS
formats is implemented as the regex CPython compiles for them: day and
month names full or abbreviated and case-insensitive, one- or two-digit
day/hour/minute/second fields with the directive's value ranges, a
four-digit year, flexible whitespace between tokens, full-string match,
then the `datetime` constructor's calendar validation.  `%Z` accepts
`UTC`/`GMT` (local timezone names are not modelled).  Timestamps use the
proleptic Gregorian civil-from-days algorithm in UTC. -/

/-- Model of a naive Python `datetime`. -/
structure PDateTime where
  year : Nat
  month : Nat
  day : Nat
  hour : Nat
  minute : Nat
  second : Nat
deriving DecidableEq

/-- Gregorian leap year test. -/
def isLeapYear (y : Nat) : Bool :=
  y % 4 = 0 && (y % 100 ≠ 0 || y % 400 = 0)

/-- Days in a month of a given year. -/
def daysInMonth (y m : Nat) : Nat :=
  if m = 2 then (if isLeapYear y then 29 else 28)
  else if m = 4 ∨ m = 6 ∨ m = 9 ∨ m = 11 then 30
  else 31

/-- Days since the Unix epoch of a civil date (proleptic Gregorian). -/
def daysFromCivil (y : Int) (m d : Nat) : Int :=
  let y2 := y - (if m ≤ 2 then 1 else 0)
  let era := y2.fdiv 400
  let yoe := y2 - era * 400
  let mp : Int := (m : Int) + (if 2 < m then -3 else 9)
  let doy := (153 * mp + 2) / 5 + (d : Int) - 1
  let doe := yoe * 365 + yoe / 4 - yoe / 100 + doy
  era * 146097 + doe - 719468

/-- Civil date of a count of days since the Unix epoch. -/
def civilFromDays (z0 : Int) : Int × Nat × Nat :=
  let z := z0 + 719468
  let era := z.fdiv 146097
  let doe := z - era * 146097
  let yoe := (doe - doe / 1460 + doe / 36524 - doe / 146097) / 365
  let y := yoe + era * 400
  let doy := doe - (365 * yoe + yoe / 4 - yoe / 100)
  let mp := (5 * doy + 2) / 153
  let d := doy - (153 * mp + 2) / 5 + 1
  let m := mp + (if mp < 10 then 3 else -9)
  (y + (if m ≤ 2 then 1 else 0), m.toNat, d.toNat)

/-- Epoch seconds of a naive datetime (UTC model). -/
def timestampOf (dt : PDateTime) : Int :=
  daysFromCivil (dt.year : Int) dt.month dt.day * 86400 +
    (dt.hour : Int) * 3600 + (dt.minute : Int) * 60 + (dt.second : Int)

/-- Model of `datetime.fromtimestamp` (UTC model). -/
def pdtFromTimestamp (n : Int) : PDateTime :=
  let days := n.fdiv 86400
  let rem := (n - days * 86400).toNat
  let c := civilFromDays days
  ⟨c.1.toNat, c.2.1, c.2.2, rem / 3600, (rem % 3600) / 60, rem % 60⟩

/-- Smallest epoch value `datetime.fromtimestamp` accepts in the model
(year 1; the exact platform bound varies, nothing below depends on it). -/
def epochMin : Int := -62135596800

/-- Largest epoch value `datetime.fromtimestamp` accepts in the model
(year 9999). -/
def epochMax : Int := 253402300799

/-- Lowercased month names, full and abbreviated, with month numbers. -/
def monthNames : List (List Char × Nat) :=
  [("january".data, 1), ("february".data, 2), ("march".data, 3),
   ("april".data, 4), ("may".data, 5), ("june".data, 6),
   ("july".data, 7), ("august".data, 8), ("september".data, 9),
   ("october".data, 10), ("november".data, 11), ("december".data, 12),
   ("jan".data, 1), ("feb".data, 2), ("mar".data, 3), ("apr".data, 4),
   ("jun".data, 6), ("jul".data, 7), ("aug".data, 8), ("sep".data, 9),
   ("oct".data, 10), ("nov".data, 11), ("dec".data, 12)]

/-- Lowercased weekday names, full and abbreviated. -/
def weekdayNames : List (List Char) :=
  ["monday".data, "tuesday".data, "wednesday".data, "thursday".data,
   "friday".data, "saturday".data, "sunday".data,
   "mon".data, "tue".data, "wed".data, "thu".data, "fri".data,
   "sat".data, "sun".data]

/-- Timezone names accepted for `%Z` in the model. -/
def tzNames : List (List Char) := ["utc".data, "gmt".data]

/-- Consume mandatory whitespace (the `\s+` a format-string blank
compiles to). -/
def eatWs1 (l : List Char) : Option (List Char) :=
  match l with
  | c :: r => if isPyWs c then some ((c :: r).dropWhile isPyWs) else none
  | [] => none

/-- Consume a one- or two-digit number (the shape shared by the `%d`,
`%H`, `%M` and `%S` directives; value ranges are checked by callers). -/
def takeNum12 (l : List Char) : Option (Nat × List Char) :=
  match l with
  | a :: b :: r =>
    if isDigitCh a then
      if isDigitCh b then
        some (digitsToNat [a, b], r)
      else some (digitsToNat [a], b :: r)
    else none
  | [a] => if isDigitCh a then some (digitsToNat [a], []) else none
  | [] => none

/-- Consume exactly four digits (the `%Y` directive). -/
def take4Digits (l : List Char) : Option (Nat × List Char) :=
  match l with
  | a :: b :: c :: d :: r =>
    if isDigitCh a && isDigitCh b && isDigitCh c && isDigitCh d then
      some (digitsToNat [a, b, c, d], r)
    else none
  | _ => none

/-- Consume a name token (up to whitespace), lowercased. -/
def takeNameTok (l : List Char) : List Char × List Char :=
  (pyLowerChars (l.takeWhile (fun c => ¬ isPyWs c)),
   l.dropWhile (fun c => ¬ isPyWs c))

/-- Model of `datetime.strptime` for the two PBS formats
`"%a %b %d %H:%M:%S %Y"` and (with `withTz`)
`"%a %b %d %H:%M:%S %Z %Y"`. -/
def strptimePbs (withTz : Bool) (l : List Char) : Option PDateTime :=
  let dayTok := takeNameTok l
  if ¬ dayTok.1 ∈ weekdayNames then none
  else match eatWs1 dayTok.2 with
  | none => none
  | some l1 =>
    let monTok := takeNameTok l1
    match (monthNames.find? (fun p => p.1 = monTok.1)).map
        (fun p => p.2) with
    | none => none
    | some month =>
      match eatWs1 monTok.2 with
      | none => none
      | some l2 =>
        match takeNum12 l2 with
        | none => none
        | some (day, l3) =>
          if ¬ (1 ≤ day ∧ day ≤ 31) then none
          else match eatWs1 l3 with
          | none => none
          | some l4 =>
            match takeNum12 l4 with
            | none => none
            | some (hour, l5) =>
              if ¬ hour ≤ 23 then none
              else match l5 with
              | ':' :: l6 =>
                match takeNum12 l6 with
                | none => none
                | some (minute, l7) =>
                  if ¬ minute ≤ 59 then none
                  else match l7 with
                  | ':' :: l8 =>
                    match takeNum12 l8 with
                    | none => none
                    | some (second, l9) =>
                      if ¬ second ≤ 59 then none
                      else match eatWs1 l9 with
                      | none => none
                      | some l10 =>
                        let afterTz : Option (List Char) :=
                          if withTz then
                            let tzTok := takeNameTok l10
                            if tzTok.1 ∈ tzNames then eatWs1 tzTok.2
                            else none
                          else some l10
                        match afterTz with
                        | none => none
                        | some l11 =>
                          match take4Digits l11 with
                          | none => none
                          | some (year, l12) =>
                            if l12 = [] ∧ 1 ≤ year ∧
                                day ≤ daysInMonth year month then
                              some ⟨year, month, day, hour, minute,
                                second⟩
                            else none
                  | _ => none
              | _ => none

/-- Model of `parse_pbs_time(timestr)` (source lines 47-59) on a string:
try the two strptime formats, then fall back to epoch seconds; every
failure surfaces as `ValueError`. -/
def parse_pbs_time_chars (l : List Char) : Except PyExc PDateTime :=
  if l = [] then .error .valueError
  else match strptimePbs false l with
  | some dt => .ok dt
  | none =>
    match strptimePbs true l with
    | some dt => .ok dt
    | none =>
      match pyIntOfChars l with
      | some n =>
        if epochMin ≤ n ∧ n ≤ epochMax then .ok (pdtFromTimestamp n)
        else .error .valueError
      | none => .error .valueError

/-- Boolean success test of `parse_pbs_time` (the loop of source lines
520-525 calls the full function once per format and classifies as
`datetime` exactly when it succeeds). -/
def parsePbsOk (l : List Char) : Bool :=
  match parse_pbs_time_chars l with
  | .ok _ => true
  | .error _ => false

/-- Model of `datetime.strptime(f"{year} {s}", "%Y %m/%d %H:%M")` used
by `convert_value_for_sorting` for the compact display format; the
four-digit year prefix built by the f-string parses only for years
1000-9999. -/
def strptimeSubmitted (year : Nat) (l : List Char) : Option PDateTime :=
  if ¬ (1000 ≤ year ∧ year ≤ 9999) then none
  else match takeNum12 l with
  | none => none
  | some (month, l1) =>
    if ¬ (1 ≤ month ∧ month ≤ 12) then none
    else match l1 with
    | '/' :: l2 =>
      match takeNum12 l2 with
      | none => none
      | some (day, l3) =>
        if ¬ (1 ≤ day ∧ day ≤ 31) then none
        else match eatWs1 l3 with
        | none => none
        | some l4 =>
          match takeNum12 l4 with
          | none => none
          | some (hour, l5) =>
            if ¬ hour ≤ 23 then none
            else match l5 with
            | ':' :: l6 =>
              match takeNum12 l6 with
              | none => none
              | some (minute, l7) =>
                if l7 = [] ∧ minute ≤ 59 ∧ day ≤ daysInMonth year month
                then some ⟨year, month, day, hour, minute, 0⟩
                else none
            | _ => none
    | _ => none

/-! ### Value classification (`detect_value_type`, source lines 500-538)
and sort-key conversion (`convert_value_for_sorting`, lines 540-589) -/

/-- Match of the anchored regex for durations, full-string
`\d+:\d{2}:\d{2}` (source line 516). -/
def matchTimePat (l : List Char) : Bool :=
  let ds := l.takeWhile isDigitCh
  (!ds.isEmpty) &&
    (match l.drop ds.length with
     | ':' :: a :: b :: ':' :: c :: d :: [] =>
       isDigitCh a && isDigitCh b && isDigitCh c && isDigitCh d
     | _ => false)

/-- Match of the anchored regex for the compact display timestamp,
full-string `\d{2}/\d{2}\s+\d{2}:\d{2}` (source line 528). -/
def matchSubmittedPat (l : List Char) : Bool :=
  match l with
  | a :: b :: '/' :: c :: d :: rest =>
    isDigitCh a && isDigitCh b && isDigitCh c && isDigitCh d &&
      (let ws := rest.takeWhile isPyWs
       (!ws.isEmpty) &&
         (match rest.drop ws.length with
          | e :: f :: ':' :: g :: h :: [] =>
            isDigitCh e && isDigitCh f && isDigitCh g && isDigitCh h
          | _ => false))
  | _ => false

/-- Model of `detect_value_type(value)` (source lines 500-538).  The
`datetime` test of lines 520-525 loops over the two formats but calls
the full `parse_pbs_time` each iteration (which itself tries both
formats and the epoch fallback), so the test succeeds exactly when
`parse_pbs_time` accepts the stripped text; that is `parsePbsOk`. -/
def detect_value_type (value : PyVal) : String :=
  if value = PyVal.pynone ∨ value = PyVal.pstr "--" ∨
      value = PyVal.pstr "" then "empty"
  else
    let str_value := pyStripChars (pyStrOf value)
    if matchTimePat str_value then "time"
    else if parsePbsOk str_value then "datetime"
    else if matchSubmittedPat str_value then "submitted_time"
    else if (pyFloatOfChars str_value).isSome then "numeric"
    else "string"

/-- Scalar part of a sort key: a number or a lowercased string. -/
inductive SVal where
  | num (x : PyNum)
  | str (s : List Char)
deriving DecidableEq

/-- Model of `convert_value_for_sorting(value, None, reverse)` (source
lines 540-589, with the type auto-detected as at every call site): a pair
of the validity flag — flipped with the sort direction so that empty
values always sort last — and the converted scalar.  Conversion failures
fall back to the empty key (the `except` of line 587); `nowYear` stands
for `datetime.now().year` of line 580. -/
def convert_value_for_sorting (nowYear : Nat) (value : PyVal)
    (reverse : Bool) : Nat × SVal :=
  let value_type := detect_value_type value
  let valid_flag : Nat := if reverse then 1 else 0
  let empty_flag : Nat := if reverse then 0 else 1
  if value_type = "empty" then (empty_flag, SVal.num (PyNum.fin 0 0))
  else
    let str_value := pyStripChars (pyStrOf value)
    if value_type = "time" then
      match string_time_to_seconds_chars str_value with
      | .ok n => (valid_flag, SVal.num (PyNum.fin n 0))
      | .error _ => (empty_flag, SVal.num (PyNum.fin 0 0))
    else if value_type = "datetime" then
      match parse_pbs_time_chars str_value with
      | .ok dt => (valid_flag, SVal.num (PyNum.fin (timestampOf dt) 0))
      | .error _ => (empty_flag, SVal.num (PyNum.fin 0 0))
    else if value_type = "submitted_time" then
      match strptimeSubmitted nowYear str_value with
      | some dt => (valid_flag, SVal.num (PyNum.fin (timestampOf dt) 0))
      | none => (empty_flag, SVal.num (PyNum.fin 0 0))
    else if value_type = "numeric" then
      match pyFloatOfChars str_value with
      | some x => (valid_flag, SVal.num x)
      | none => (empty_flag, SVal.num (PyNum.fin 0 0))
    else (valid_flag, SVal.str (pyLowerChars str_value))

/-- Claim C6: `detect_value_type` is total — every value maps to exactly
one of the six categories — and the categories are characterized by the
stated precedence order: the empty test first; then the duration
pattern; then acceptance by `parse_pbs_time` (the absolute PBS timestamp
formats, which include the epoch-seconds fallback); then the compact
`MM/DD HH:MM` pattern; then parseability as a number; else string.  In
particular `"01:30:00"` is a duration, never numeric. -/
theorem c6_detect_value_type_total_and_precedence (v : PyVal) :
    detect_value_type v ∈
      (["empty", "time", "datetime", "submitted_time", "numeric",
        "string"] : List String) ∧
    (detect_value_type v = "empty" ↔
      (v = PyVal.pynone ∨ v = PyVal.pstr "--" ∨ v = PyVal.pstr "")) ∧
    (detect_value_type v = "time" ↔
      (¬ (v = PyVal.pynone ∨ v = PyVal.pstr "--" ∨ v = PyVal.pstr "") ∧
        matchTimePat (pyStripChars (pyStrOf v)) = true)) ∧
    (detect_value_type v = "datetime" ↔
      (¬ (v = PyVal.pynone ∨ v = PyVal.pstr "--" ∨ v = PyVal.pstr "") ∧
        matchTimePat (pyStripChars (pyStrOf v)) = false ∧
        parsePbsOk (pyStripChars (pyStrOf v)) = true)) ∧
    (detect_value_type v = "submitted_time" ↔
      (¬ (v = PyVal.pynone ∨ v = PyVal.pstr "--" ∨ v = PyVal.pstr "") ∧
        matchTimePat (pyStripChars (pyStrOf v)) = false ∧
        parsePbsOk (pyStripChars (pyStrOf v)) = false ∧
        matchSubmittedPat (pyStripChars (pyStrOf v)) = true)) ∧
    (detect_value_type v = "numeric" ↔
      (¬ (v = PyVal.pynone ∨ v = PyVal.pstr "--" ∨ v = PyVal.pstr "") ∧
        matchTimePat (pyStripChars (pyStrOf v)) = false ∧
        parsePbsOk (pyStripChars (pyStrOf v)) = false ∧
        matchSubmittedPat (pyStripChars (pyStrOf v)) = false ∧
        (pyFloatOfChars (pyStripChars (pyStrOf v))).isSome = true)) ∧
    (detect_value_type v = "string" ↔
      (¬ (v = PyVal.pynone ∨ v = PyVal.pstr "--" ∨ v = PyVal.pstr "") ∧
        matchTimePat (pyStripChars (pyStrOf v)) = false ∧
        parsePbsOk (pyStripChars (pyStrOf v)) = false ∧
        matchSubmittedPat (pyStripChars (pyStrOf v)) = false ∧
        (pyFloatOfChars (pyStripChars (pyStrOf v))).isSome = false)) ∧
    detect_value_type (PyVal.pstr "01:30:00") = "time" := by
  have hex : detect_value_type (PyVal.pstr "01:30:00") = "time" := by
    decide
  rw [hex]
  unfold detect_value_type
  by_cases h1 : (v = PyVal.pynone ∨ v = PyVal.pstr "--" ∨
      v = PyVal.pstr "")
  · simp only [h1, if_pos, if_true]
    refine ⟨by simp, ?_⟩
    simp [h1]
  · rw [if_neg h1]
    by_cases h2 : matchTimePat (pyStripChars (pyStrOf v)) = true
    · simp only [h2, if_true]
      refine ⟨by simp, ?_⟩
      simp [h1, h2]
    · rw [Bool.not_eq_true] at h2
      simp only [h2, Bool.false_eq_true, if_false]
      by_cases h3 : parsePbsOk (pyStripChars (pyStrOf v)) = true
      · simp only [h3, if_true]
        refine ⟨by simp, ?_⟩
        simp [h1, h2, h3]
      · rw [Bool.not_eq_true] at h3
        simp only [h3, Bool.false_eq_true, if_false]
        by_cases h4 : matchSubmittedPat (pyStripChars (pyStrOf v)) = true
        · simp only [h4, if_true]
          refine ⟨by simp, ?_⟩
          simp [h1, h2, h3, h4]
        · rw [Bool.not_eq_true] at h4
          simp only [h4, Bool.false_eq_true, if_false]
          by_cases h5 :
              (pyFloatOfChars (pyStripChars (pyStrOf v))).isSome = true
          · simp only [h5, if_true]
            refine ⟨by simp, ?_⟩
            simp [h1, h2, h3, h4, h5]
          · rw [Bool.not_eq_true] at h5
            simp only [h5, Bool.false_eq_true, if_false]
            refine ⟨by simp, ?_⟩
            simp [h1, h2, h3, h4, h5]

/-! ### Sorting with converted keys (`print_jobs`, source lines 782-807)

`list.sort(key=..., reverse=...)` is modelled by a stable insertion sort
over the Boolean `<` of the computed keys.  Python tuple comparison on
the keys compares the flag components first and only consults the scalar
parts when the flags tie; comparing a number with a string there raises
`TypeError`.  CPython raises lazily, when a comparison actually reaches
an incomparable pair; the model conservatively checks every pair of
keys up front, which agrees with CPython whenever all pairs are
comparable (no error either way, identical output) and on two-element
lists (their only pair is always compared).  Tie order (stability) is
preserved by the insertion strategy below, which inserts a later element
after every earlier element that is not strictly greater. -/

/-- Python `<` on strings: lexicographic by code point. -/
def listLtChars : List Char → List Char → Bool
  | [], [] => false
  | [], _ :: _ => true
  | _ :: _, [] => false
  | a :: as, b :: bs =>
    if a < b then true else if b < a then false else listLtChars as bs

/-- Comparability of two key scalars under Python `<`. -/
def svalComparable : SVal → SVal → Bool
  | .num _, .num _ => true
  | .str _, .str _ => true
  | _, _ => false

/-- Python `<` on key scalars (the cross-type case is unreachable under
comparability and yields `false`). -/
def svalLt : SVal → SVal → Bool
  | .num x, .num y => pyNumLt x y
  | .str s, .str t => listLtChars s t
  | _, _ => false

/-- Comparability of two sort keys: tuple comparison consults the scalar
parts only when the flags tie. -/
def sKeyComparable (a b : Nat × SVal) : Bool :=
  if a.1 ≠ b.1 then true else svalComparable a.2 b.2

/-- Python `<` on sort keys (tuple comparison). -/
def sKeyLt (a b : Nat × SVal) : Bool :=
  if a.1 < b.1 then true
  else if b.1 < a.1 then false
  else svalLt a.2 b.2

/-- Stable insertion: a new element passes every existing element that
is strictly smaller and stops before the first that is not. -/
def insertStable (lt : α → α → Bool) (x : α) : List α → List α
  | [] => [x]
  | y :: ys => if lt y x then y :: insertStable lt x ys else x :: y :: ys

/-- Stable insertion sort. -/
def sortStable (lt : α → α → Bool) : List α → List α
  | [] => []
  | x :: xs => insertStable lt x (sortStable lt xs)

/-- Check that every pair of keys of the list is comparable. -/
def pairwiseCompar (key : α → Nat × SVal) : List α → Bool
  | [] => true
  | x :: xs =>
    xs.all (fun y => sKeyComparable (key x) (key y)) &&
      pairwiseCompar key xs

/-- Model of `job_list.sort(key=key, reverse=reverse)` where `key`
computes a flag-and-scalar pair (see the section comment for the
`TypeError` model). -/
def pySortByKey (key : α → Nat × SVal) (reverse : Bool) (l : List α) :
    Except PyExc (List α) :=
  if pairwiseCompar key l then
    .ok (sortStable (fun a b =>
      if reverse then sKeyLt (key b) (key a)
      else sKeyLt (key a) (key b)) l)
  else .error .typeError

theorem insertStable_perm (lt : α → α → Bool) (x : α) (l : List α) :
    (insertStable lt x l).Perm (x :: l) := by
  induction l with
  | nil => rfl
  | cons y ys ih =>
    rw [insertStable]
    by_cases h : lt y x = true
    · rw [if_pos h]
      exact (ih.cons y).trans (List.Perm.swap x y ys)
    · rw [if_neg h]

theorem sortStable_perm (lt : α → α → Bool) (l : List α) :
    (sortStable lt l).Perm l := by
  induction l with
  | nil => rfl
  | cons x xs ih =>
    exact (insertStable_perm lt x (sortStable lt xs)).trans (ih.cons x)

theorem insertStable_mem {lt : α → α → Bool} {x a : α} {l : List α} :
    a ∈ insertStable lt x l ↔ a = x ∨ a ∈ l := by
  have := (insertStable_perm lt x l).mem_iff (a := a)
  simpa using this

theorem sortStable_mem {lt : α → α → Bool} {a : α} {l : List α} :
    a ∈ sortStable lt l ↔ a ∈ l :=
  (sortStable_perm lt l).mem_iff

theorem insertStable_pairwise (lt : α → α → Bool) (univ : List α)
    (hasym : ∀ a ∈ univ, ∀ b ∈ univ, lt a b = true → lt b a = false)
    (htrans : ∀ a ∈ univ, ∀ b ∈ univ, ∀ c ∈ univ,
      lt b a = false → lt c b = false → lt c a = false)
    (x : α) (hx : x ∈ univ) (L : List α) (hLu : ∀ a ∈ L, a ∈ univ)
    (hL : L.Pairwise (fun a b => lt b a = false)) :
    (insertStable lt x L).Pairwise (fun a b => lt b a = false) := by
  induction L with
  | nil => simp [insertStable]
  | cons y ys ih =>
    rw [List.pairwise_cons] at hL
    rw [insertStable]
    by_cases h : lt y x = true
    · rw [if_pos h]
      rw [List.pairwise_cons]
      constructor
      · intro z hz
        rcases insertStable_mem.1 hz with hz | hz
        · rw [hz]
          exact hasym y (hLu y (by simp)) x hx h
        · exact hL.1 z hz
      · exact ih (fun a ha => hLu a (by simp [ha])) hL.2
    · rw [if_neg h]
      rw [Bool.not_eq_true] at h
      rw [List.pairwise_cons]
      constructor
      · intro z hz
        rcases List.mem_cons.1 hz with hz | hz
        · rw [hz]; exact h
        · exact htrans x hx y (hLu y (by simp)) z (hLu z (by simp [hz]))
            h (hL.1 z hz)
      · exact List.pairwise_cons.2 hL
  
theorem sortStable_pairwise (lt : α → α → Bool) (univ : List α)
    (hasym : ∀ a ∈ univ, ∀ b ∈ univ, lt a b = true → lt b a = false)
    (htrans : ∀ a ∈ univ, ∀ b ∈ univ, ∀ c ∈ univ,
      lt b a = false → lt c b = false → lt c a = false)
    (l : List α) (hlu : ∀ a ∈ l, a ∈ univ) :
    (sortStable lt l).Pairwise (fun a b => lt b a = false) := by
  induction l with
  | nil => simp [sortStable]
  | cons x xs ih =>
    rw [sortStable]
    exact insertStable_pairwise lt univ hasym htrans x (hlu x (by simp))
      (sortStable lt xs)
      (fun a ha => hlu a (by simp [sortStable_mem.1 ha]))
      (ih (fun a ha => hlu a (by simp [ha])))

/-- Key scalars on which Python ordering is well behaved: everything
except `nan` (whose comparisons are all false, breaking transitivity of
the sort order silently rather than with an error). -/
def goodSVal : SVal → Bool
  | .num PyNum.nan => false
  | _ => true

theorem listLt_asymm :
    ∀ s t, listLtChars s t = true → listLtChars t s = false := by
  intro s
  induction s with
  | nil =>
    intro t h
    cases t with
    | nil => simp [listLtChars] at h
    | cons b bs => rfl
  | cons a as ih =>
    intro t h
    cases t with
    | nil => simp [listLtChars] at h
    | cons b bs =>
      rw [listLtChars] at h ⊢
      by_cases hab : a < b
      · have hba : ¬ b < a := lt_asymm hab
        simp [hba, hab]
      · by_cases hba : b < a
        · simp [hab, hba] at h
        · simp only [hab, hba, if_false] at h ⊢
          exact ih bs h

theorem listLt_negtrans :
    ∀ s t u, listLtChars t s = false → listLtChars u t = false →
      listLtChars u s = false := by
  intro s
  induction s with
  | nil =>
    intro t u h1 h2
    cases u with
    | nil => rfl
    | cons c cs => rfl
  | cons a as ih =>
    intro t u h1 h2
    cases t with
    | nil => simp [listLtChars] at h1
    | cons b bs =>
      cases u with
      | nil => simp [listLtChars] at h2
      | cons c cs =>
        rw [listLtChars] at h1 h2 ⊢
        by_cases hba : b < a
        · simp [hba] at h1
        · by_cases hcb : c < b
          · simp [hcb] at h2
          · by_cases hab : a < b
            · have hac : a < c := lt_of_lt_of_le hab (le_of_not_lt hcb)
              have hca : ¬ c < a := lt_asymm hac
              simp [hca, hac]
            · have heab : a = b := le_antisymm (le_of_not_lt hba)
                (le_of_not_lt hab)
              by_cases hbc : b < c
              · have hac : a < c := heab ▸ hbc
                have hca : ¬ c < a := lt_asymm hac
                simp [hca, hac]
              · have hebc : b = c := le_antisymm (le_of_not_lt hcb)
                  (le_of_not_lt hbc)
                have hca : ¬ c < a := by
                  rw [heab, hebc]
                  exact lt_irrefl c
                have hac : ¬ a < c := by
                  rw [heab, hebc]
                  exact lt_irrefl c
                simp only [hba, hcb, hab, hbc, if_false] at h1 h2
                simp only [hca, hac, if_false]
                exact ih bs cs h1 h2

theorem pyNumLt_asymm (x y : PyNum) :
    pyNumLt x y = true → pyNumLt y x = false := by
  cases x <;> cases y <;> simp [pyNumLt] <;> intro h <;> omega

theorem pyNumLt_negtrans (x y z : PyNum)
    (hx : goodSVal (SVal.num x) = true) (hy : goodSVal (SVal.num y) = true)
    (hz : goodSVal (SVal.num z) = true) :
    pyNumLt y x = false → pyNumLt z y = false → pyNumLt z x = false := by
  cases x <;> cases y <;> cases z <;>
    simp_all [pyNumLt, goodSVal] <;> intro h1 h2
  case fin.fin.fin a da b db c dc =>
    have hDa : (0 : Int) < (da : Int) + 1 := by positivity
    have hDb : (0 : Int) < (db : Int) + 1 := by positivity
    have hDc : (0 : Int) < (dc : Int) + 1 := by positivity
    have h3 : a * ((db : Int) + 1) * ((dc : Int) + 1) ≤
        b * ((da : Int) + 1) * ((dc : Int) + 1) :=
      mul_le_mul_of_nonneg_right (by omega) hDc.le
    have h4 : b * ((dc : Int) + 1) * ((da : Int) + 1) ≤
        c * ((db : Int) + 1) * ((da : Int) + 1) :=
      mul_le_mul_of_nonneg_right (by omega) hDa.le
    have h5 : a * ((dc : Int) + 1) * ((db : Int) + 1) ≤
        c * ((da : Int) + 1) * ((db : Int) + 1) := by nlinarith
    have h6 : a * ((dc : Int) + 1) ≤ c * ((da : Int) + 1) :=
      le_of_mul_le_mul_right h5 hDb
    omega

theorem svalLt_asymm (a b : SVal) :
    svalLt a b = true → svalLt b a = false := by
  cases a <;> cases b <;> simp [svalLt]
  · exact fun h => pyNumLt_asymm _ _ h
  · exact fun h => listLt_asymm _ _ h

theorem svalLt_negtrans (a b c : SVal)
    (hga : goodSVal a = true) (hgb : goodSVal b = true)
    (hgc : goodSVal c = true)
    (hab : svalComparable a b = true) (hbc : svalComparable b c = true) :
    svalLt b a = false → svalLt c b = false → svalLt c a = false := by
  cases a <;> cases b <;> cases c <;>
    simp_all [svalLt, svalComparable]
  · exact fun h1 h2 => pyNumLt_negtrans _ _ _ hga hgb hgc h1 h2
  · exact fun h1 h2 => listLt_negtrans _ _ _ h1 h2

theorem svalComparable_refl (a : SVal) : svalComparable a a = true := by
  cases a <;> simp [svalComparable]

theorem svalComparable_symm {a b : SVal}
    (h : svalComparable a b = true) : svalComparable b a = true := by
  cases a <;> cases b <;> simp_all [svalComparable]

theorem sKeyComparable_refl (p : Nat × SVal) :
    sKeyComparable p p = true := by
  simp [sKeyComparable, svalComparable_refl]

theorem sKeyComparable_symm {p q : Nat × SVal}
    (h : sKeyComparable p q = true) : sKeyComparable q p = true := by
  unfold sKeyComparable at h ⊢
  by_cases hf : p.1 = q.1
  · simp only [hf] at h ⊢
    split_ifs at h ⊢ with h2
    · rfl
    · exact svalComparable_symm h
  · simp [hf, Ne.symm hf]

theorem sKeyLt_asymm (p q : Nat × SVal) :
    sKeyLt p q = true → sKeyLt q p = false := by
  unfold sKeyLt
  rcases Nat.lt_trichotomy p.1 q.1 with h | h | h
  · have h2 : ¬ q.1 < p.1 := by omega
    simp [h, h2]
  · have h2 : ¬ q.1 < p.1 := by omega
    have h3 : ¬ p.1 < q.1 := by omega
    simp only [h2, h3, if_false]
    exact svalLt_asymm _ _
  · intro hlt
    rw [if_neg (by omega : ¬ p.1 < q.1), if_pos h] at hlt
    simp at hlt

theorem sKeyLt_negtrans (p q r : Nat × SVal)
    (hgp : goodSVal p.2 = true) (hgq : goodSVal q.2 = true)
    (hgr : goodSVal r.2 = true)
    (hpq : sKeyComparable p q = true) (hqr : sKeyComparable q r = true)
    (h1 : sKeyLt q p = false) (h2 : sKeyLt r q = false) :
    sKeyLt r p = false := by
  have hqp_le : p.1 ≤ q.1 := by
    by_contra hcon
    have : q.1 < p.1 := by omega
    simp [sKeyLt, this] at h1
  have hrq_le : q.1 ≤ r.1 := by
    by_contra hcon
    have : r.1 < q.1 := by omega
    simp [sKeyLt, this] at h2
  by_cases hpr : p.1 < r.1
  · unfold sKeyLt
    rw [if_neg (by omega : ¬ r.1 < p.1), if_pos hpr]
  · have heq : p.1 = r.1 := by omega
    have heq2 : p.1 = q.1 := by omega
    have heq3 : q.1 = r.1 := by omega
    have hv1 : svalLt q.2 p.2 = false := by
      simpa [sKeyLt, heq2, lt_irrefl] using h1
    have hv2 : svalLt r.2 q.2 = false := by
      simpa [sKeyLt, heq3, lt_irrefl] using h2
    have hcab : svalComparable p.2 q.2 = true := by
      simpa [sKeyComparable, heq2] using hpq
    have hcbc : svalComparable q.2 r.2 = true := by
      simpa [sKeyComparable, heq3] using hqr
    have := svalLt_negtrans p.2 q.2 r.2 hgp hgq hgr hcab hcbc hv1 hv2
    simp [sKeyLt, heq, lt_irrefl, this]

theorem pairwiseCompar_mem {key : α → Nat × SVal} {l : List α}
    (h : pairwiseCompar key l = true) {a b : α}
    (ha : a ∈ l) (hb : b ∈ l) :
    sKeyComparable (key a) (key b) = true := by
  induction l with
  | nil => simp at ha
  | cons x xs ih =>
    rw [pairwiseCompar, Bool.and_eq_true, List.all_eq_true] at h
    rcases List.mem_cons.1 ha with ha | ha <;>
      rcases List.mem_cons.1 hb with hb | hb
    · rw [ha, hb]; exact sKeyComparable_refl _
    · rw [ha]; exact h.1 b hb
    · rw [hb]; exact sKeyComparable_symm (h.1 a ha)
    · exact ih h.2 ha hb

/-- Empty/placeholder detection at the key level: the ascending key flag
of the value is the empty flag `1` (this covers `None`, `'--'`, `''` and
every value whose conversion fails). -/
def isEmptyKey (y : Nat) (v : PyVal) : Bool :=
  (convert_value_for_sorting y v false).1 == 1

/-- All positions of `x` come strictly before all positions of `z`. -/
def allBefore (L : List α) (x z : α) : Prop :=
  ∀ i j : Fin L.length, L.get i = x → L.get j = z → (i : Nat) < (j : Nat)

/-- Ascending keyed sort of the pipeline (source line 784 and the
walltime/runtime/submitted branches, with `reverse=False`). -/
def sortAsc (y : Nat) (l : List PyVal) : List PyVal :=
  sortStable (fun a b => sKeyLt (convert_value_for_sorting y a false)
    (convert_value_for_sorting y b false)) l

/-- Descending keyed sort of the pipeline (same call sites with
`reverse=True`, which also flips the key flags). -/
def sortDesc (y : Nat) (l : List PyVal) : List PyVal :=
  sortStable (fun a b => sKeyLt (convert_value_for_sorting y b true)
    (convert_value_for_sorting y a true)) l

theorem convert_flags (y : Nat) (v : PyVal) :
    ((convert_value_for_sorting y v false).1 = 0 ∨
      (convert_value_for_sorting y v false).1 = 1) ∧
    (convert_value_for_sorting y v true).1 =
      1 - (convert_value_for_sorting y v false).1 ∧
    (convert_value_for_sorting y v true).2 =
      (convert_value_for_sorting y v false).2 := by
  unfold convert_value_for_sorting
  simp only [Bool.false_eq_true, Bool.true_eq_false, if_false, if_true]
  split_ifs <;> first
    | simp
    | (split <;> simp)

theorem sKeyComparable_flip (y : Nat) (v w : PyVal) :
    sKeyComparable (convert_value_for_sorting y v true)
        (convert_value_for_sorting y w true) =
      sKeyComparable (convert_value_for_sorting y v false)
        (convert_value_for_sorting y w false) := by
  obtain ⟨hv01, hvf, hvs⟩ := convert_flags y v
  obtain ⟨hw01, hwf, hws⟩ := convert_flags y w
  unfold sKeyComparable
  rw [hvf, hwf, hvs, hws]
  rcases hv01 with hv | hv <;> rcases hw01 with hw | hw <;>
    rw [hv, hw] <;> simp

theorem allCongrB (l : List α) (p q : α → Bool) (h : ∀ x, p x = q x) :
    l.all p = l.all q := by
  induction l with
  | nil => rfl
  | cons x xs ih => simp [List.all_cons, h x, ih]

theorem pairwiseCompar_flip (y : Nat) (l : List PyVal) :
    pairwiseCompar (fun v => convert_value_for_sorting y v true) l =
      pairwiseCompar (fun v => convert_value_for_sorting y v false) l := by
  induction l with
  | nil => rfl
  | cons x xs ih =>
    unfold pairwiseCompar
    rw [ih, allCongrB xs _ _ (fun w => sKeyComparable_flip y x w)]

deriving instance DecidableEq for Except

/-- Claim C5, counterexample: the claim quantifies over every list of
column values, but sorting the two-element column `["5", "abc"]` with
keys from `convert_value_for_sorting` raises `TypeError` — `"5"` yields
a numeric key (it parses as an epoch timestamp), `"abc"` a string key,
and Python cannot order a number against a string — so no sorted output
exists, let alone one with empties last. -/
theorem c5_counterexample_mixed_types :
    pySortByKey (fun v => convert_value_for_sorting 2025 v false) false
      [PyVal.pstr "5", PyVal.pstr "abc"] =
        Except.error PyExc.typeError ∧
    ¬ ∃ out, pySortByKey (fun v => convert_value_for_sorting 2025 v false)
      false [PyVal.pstr "5", PyVal.pstr "abc"] = Except.ok out := by
  have h : pySortByKey (fun v => convert_value_for_sorting 2025 v false)
      false [PyVal.pstr "5", PyVal.pstr "abc"] =
        Except.error PyExc.typeError := by decide
  refine ⟨h, ?_⟩
  rintro ⟨out, hout⟩
  rw [h] at hout
  cases hout

/-- Claim C5, amended: for every list of column values whose keys are
pairwise comparable (no number/string mixture — forced by the
counterexample) and well behaved (no `NaN` key, whose comparisons Python
makes vacuously false), sorting in both directions succeeds and returns
a permutation; every empty/placeholder value (None, `'--'`, `''`, and
values whose conversion fails) comes after every valid value in both
directions; and flipping the direction reverses the relative order of
valid values with distinct keys. -/
theorem c5_sort_empties_last_amended (y : Nat) (l : List PyVal)
    (hcomp : pairwiseCompar
      (fun v => convert_value_for_sorting y v false) l = true)
    (hgood : ∀ v ∈ l,
      goodSVal (convert_value_for_sorting y v false).2 = true) :
    pySortByKey (fun v => convert_value_for_sorting y v false) false l =
      Except.ok (sortAsc y l) ∧
    pySortByKey (fun v => convert_value_for_sorting y v true) true l =
      Except.ok (sortDesc y l) ∧
    (sortAsc y l).Perm l ∧ (sortDesc y l).Perm l ∧
    (sortAsc y l).Pairwise
      (fun a b => isEmptyKey y a = true → isEmptyKey y b = true) ∧
    (sortDesc y l).Pairwise
      (fun a b => isEmptyKey y a = true → isEmptyKey y b = true) ∧
    (∀ a ∈ l, ∀ b ∈ l, isEmptyKey y a = false → isEmptyKey y b = false →
      svalLt (convert_value_for_sorting y a false).2
        (convert_value_for_sorting y b false).2 = true →
      allBefore (sortAsc y l) a b ∧ allBefore (sortDesc y l) b a) := by
  have hcomp1 : pairwiseCompar
      (fun v => convert_value_for_sorting y v true) l = true := by
    rw [pairwiseCompar_flip]; exact hcomp
  have h0 : pySortByKey (fun v => convert_value_for_sorting y v false)
      false l = Except.ok (sortAsc y l) := by
    unfold pySortByKey sortAsc
    rw [if_pos hcomp]
    simp only [Bool.false_eq_true, if_false]
  have h1 : pySortByKey (fun v => convert_value_for_sorting y v true)
      true l = Except.ok (sortDesc y l) := by
    unfold pySortByKey sortDesc
    rw [if_pos hcomp1]
    simp only [if_true]
  have hsortA : (sortAsc y l).Pairwise (fun a b =>
      sKeyLt (convert_value_for_sorting y b false)
        (convert_value_for_sorting y a false) = false) := by
    apply sortStable_pairwise _ l
    · intro a _ b _ h
      exact sKeyLt_asymm _ _ h
    · intro a ha b hb c hc hab hbc
      exact sKeyLt_negtrans _ _ _ (hgood a ha) (hgood b hb) (hgood c hc)
        (pairwiseCompar_mem hcomp ha hb)
        (pairwiseCompar_mem hcomp hb hc) hab hbc
    · exact fun a ha => ha
  have hsortD : (sortDesc y l).Pairwise (fun a b =>
      sKeyLt (convert_value_for_sorting y a true)
        (convert_value_for_sorting y b true) = false) := by
    apply sortStable_pairwise _ l
    · intro a _ b _ h
      exact sKeyLt_asymm _ _ h
    · intro a ha b hb c hc hab hbc
      have hga : goodSVal (convert_value_for_sorting y a true).2 = true := by
        rw [(convert_flags y a).2.2]; exact hgood a ha
      have hgb : goodSVal (convert_value_for_sorting y b true).2 = true := by
        rw [(convert_flags y b).2.2]; exact hgood b hb
      have hgc : goodSVal (convert_value_for_sorting y c true).2 = true := by
        rw [(convert_flags y c).2.2]; exact hgood c hc
      have hcab : sKeyComparable (convert_value_for_sorting y c true)
          (convert_value_for_sorting y b true) = true := by
        rw [sKeyComparable_flip]
        exact pairwiseCompar_mem hcomp hc hb
      have hcba : sKeyComparable (convert_value_for_sorting y b true)
          (convert_value_for_sorting y a true) = true := by
        rw [sKeyComparable_flip]
        exact pairwiseCompar_mem hcomp hb ha
      exact sKeyLt_negtrans _ _ _ hgc hgb hga hcab hcba hbc hab
    · exact fun a ha => ha
  have hflag0 : ∀ v, isEmptyKey y v = false →
      (convert_value_for_sorting y v false).1 = 0 := by
    intro v hv
    rcases (convert_flags y v).1 with h | h
    · exact h
    · exfalso
      rw [isEmptyKey, h] at hv
      simp at hv
  have hflag1 : ∀ v, isEmptyKey y v = true →
      (convert_value_for_sorting y v false).1 = 1 := by
    intro v hv
    rw [isEmptyKey, beq_iff_eq] at hv
    exact hv
  have hemptyA : (sortAsc y l).Pairwise
      (fun a b => isEmptyKey y a = true → isEmptyKey y b = true) := by
    refine hsortA.imp ?_
    intro a b hle hea
    by_contra heb
    rw [Bool.not_eq_true] at heb
    have ha1 := hflag1 a hea
    have hb0 := hflag0 b heb
    rw [sKeyLt, hb0, ha1] at hle
    simp at hle
  have hemptyD : (sortDesc y l).Pairwise
      (fun a b => isEmptyKey y a = true → isEmptyKey y b = true) := by
    refine hsortD.imp ?_
    intro a b hle hea
    by_contra heb
    rw [Bool.not_eq_true] at heb
    have ha1 := hflag1 a hea
    have hb0 := hflag0 b heb
    have ha0 : (convert_value_for_sorting y a true).1 = 0 := by
      rw [(convert_flags y a).2.1, ha1]
    have hb1 : (convert_value_for_sorting y b true).1 = 1 := by
      rw [(convert_flags y b).2.1, hb0]
    rw [sKeyLt, ha0, hb1] at hle
    simp at hle
  refine ⟨h0, h1, sortStable_perm _ l, sortStable_perm _ l, hemptyA,
    hemptyD, ?_⟩
  intro a ha b hb hva hvb hlt
  have hane : a ≠ b := by
    intro hcon
    subst hcon
    have := svalLt_asymm _ _ hlt
    rw [this] at hlt
    cases hlt
  constructor
  · intro i j hi hj
    by_contra hcon
    rcases Nat.lt_or_ge (j : Nat) (i : Nat) with hji | hji
    · have hR := (List.pairwise_iff_get.1 hsortA) j i hji
      rw [hi, hj] at hR
      rw [sKeyLt, hflag0 a hva, hflag0 b hvb] at hR
      simp only [lt_irrefl, if_false] at hR
      rw [hlt] at hR
      cases hR
    · have hij : (i : Nat) = (j : Nat) := by omega
      have : i = j := Fin.ext hij
      subst this
      rw [hi] at hj
      exact hane hj
  · intro i j hi hj
    by_contra hcon
    rcases Nat.lt_or_ge (j : Nat) (i : Nat) with hji | hji
    · have hR := (List.pairwise_iff_get.1 hsortD) j i hji
      rw [hi, hj] at hR
      have ha1 : (convert_value_for_sorting y a true).1 = 1 := by
        rw [(convert_flags y a).2.1, hflag0 a hva]
      have hb1 : (convert_value_for_sorting y b true).1 = 1 := by
        rw [(convert_flags y b).2.1, hflag0 b hvb]
      rw [sKeyLt, ha1, hb1] at hR
      simp only [lt_irrefl, if_false] at hR
      rw [(convert_flags y a).2.2, (convert_flags y b).2.2, hlt] at hR
      cases hR
    · have hij : (i : Nat) = (j : Nat) := by omega
      have : i = j := Fin.ext hij
      subst this
      rw [hi] at hj
      exact hane hj.symm

/-- Column of the witness for claim C5's amended theorem: two duration
values and one missing value. -/
def c5WitnessList : List PyVal :=
  [PyVal.pstr "02:00:00", PyVal.pynone, PyVal.pstr "01:30:00"]

/-- Witness for claim C5's amended theorem on a concrete column. -/
theorem c5_sort_empties_last_amended_witness :
    (pairwiseCompar (fun v => convert_value_for_sorting 2025 v false)
      c5WitnessList = true) ∧
    (∀ v ∈ c5WitnessList,
      goodSVal (convert_value_for_sorting 2025 v false).2 = true) ∧
    (pySortByKey (fun v => convert_value_for_sorting 2025 v false) false
      c5WitnessList = Except.ok (sortAsc 2025 c5WitnessList) ∧
    pySortByKey (fun v => convert_value_for_sorting 2025 v true) true
      c5WitnessList = Except.ok (sortDesc 2025 c5WitnessList) ∧
    (sortAsc 2025 c5WitnessList).Perm c5WitnessList ∧
    (sortDesc 2025 c5WitnessList).Perm c5WitnessList ∧
    (sortAsc 2025 c5WitnessList).Pairwise
      (fun a b => isEmptyKey 2025 a = true → isEmptyKey 2025 b = true) ∧
    (sortDesc 2025 c5WitnessList).Pairwise
      (fun a b => isEmptyKey 2025 a = true → isEmptyKey 2025 b = true) ∧
    (∀ a ∈ c5WitnessList, ∀ b ∈ c5WitnessList,
      isEmptyKey 2025 a = false → isEmptyKey 2025 b = false →
      svalLt (convert_value_for_sorting 2025 a false).2
        (convert_value_for_sorting 2025 b false).2 = true →
      allBefore (sortAsc 2025 c5WitnessList) a b ∧
        allBefore (sortDesc 2025 c5WitnessList) b a)) :=
  ⟨by decide, by decide,
   c5_sort_empties_last_amended 2025 c5WitnessList (by decide) (by decide)⟩

/-! ### The job sort formula evaluator (`execute_job_sort_formula`,
source lines 446-484)

The source hands the scheduler-supplied formula string to Python's
`eval` with the fourteen extracted resource variables as its
environment.  The model embeds the fragment of Python expression
semantics reachable from such a string: numeric and string literals,
names, unary minus/plus, `+ - * /`, one comparison, function calls and
attribute access.  `eval` resolves unknown names against the builtins —
modelled by `__import__`, the entry point the formula text needs to
reach arbitrary operations — and the model logs every call it performs
in an effect list, so that "executes arbitrary operations drawn from the
formula" is an observable fact.  Unmodelled Python forms (`**`, `//`,
comparison chaining, digit-group underscores) parse as syntax errors in
the model; no claim depends on them. -/

/-- Values a formula evaluation can produce. -/
inductive PyEvalVal where
  | num (x : PyNum)
  | bool (b : Bool)
  | vstr (s : String)
  | obj (descr : String)
deriving DecidableEq

/-- Comparison operators of the modelled fragment. -/
inductive CmpOp where
  | lt | le | gt | ge | eq | ne
deriving DecidableEq

/-- Abstract syntax of the modelled Python expression fragment. -/
inductive PExpr where
  | numlit (x : PyNum)
  | strlit (s : String)
  | name (s : String)
  | neg (e : PExpr)
  | pos (e : PExpr)
  | add (a b : PExpr)
  | sub (a b : PExpr)
  | mul (a b : PExpr)
  | div (a b : PExpr)
  | cmp (op : CmpOp) (a b : PExpr)
  | call (f : PExpr) (args : List PExpr)
  | attr (e : PExpr) (field : String)

/-- Negation of a Python float. -/
def pyNumNeg : PyNum → PyNum
  | .fin a d => .fin (-a) d
  | .pinf => .ninf
  | .ninf => .pinf
  | .nan => .nan

/-- Addition of Python floats (exact on finite values). -/
def pyNumAdd : PyNum → PyNum → PyNum
  | .nan, _ => .nan
  | _, .nan => .nan
  | .fin a da, .fin b db =>
    .fin (a * ((db : Int) + 1) + b * ((da : Int) + 1)) (da * db + da + db)
  | .fin _ _, .pinf => .pinf
  | .fin _ _, .ninf => .ninf
  | .pinf, .fin _ _ => .pinf
  | .ninf, .fin _ _ => .ninf
  | .pinf, .pinf => .pinf
  | .ninf, .ninf => .ninf
  | .pinf, .ninf => .nan
  | .ninf, .pinf => .nan

/-- Subtraction of Python floats. -/
def pyNumSub (x y : PyNum) : PyNum := pyNumAdd x (pyNumNeg y)

/-- Multiplication of Python floats. -/
def pyNumMul : PyNum → PyNum → PyNum
  | .nan, _ => .nan
  | _, .nan => .nan
  | .fin a da, .fin b db => .fin (a * b) (da * db + da + db)
  | .fin a _, .pinf =>
    if a = 0 then .nan else if 0 < a then .pinf else .ninf
  | .fin a _, .ninf =>
    if a = 0 then .nan else if 0 < a then .ninf else .pinf
  | .pinf, .fin b _ =>
    if b = 0 then .nan else if 0 < b then .pinf else .ninf
  | .ninf, .fin b _ =>
    if b = 0 then .nan else if 0 < b then .ninf else .pinf
  | .pinf, .pinf => .pinf
  | .ninf, .ninf => .pinf
  | .pinf, .ninf => .ninf
  | .ninf, .pinf => .ninf

/-- Division of Python floats; an exactly-zero divisor raises
`ZeroDivisionError` whatever the dividend. -/
def pyNumDiv (x y : PyNum) : Except PyExc PyNum :=
  match y with
  | .fin b db =>
    if hb : b = 0 then .error .zeroDivisionError
    else
      match x with
      | .fin a da =>
        .ok (.fin (if b < 0 then -(a * ((db : Int) + 1))
            else a * ((db : Int) + 1)) (b.natAbs * (da + 1) - 1))
      | .pinf => .ok (if 0 < b then .pinf else .ninf)
      | .ninf => .ok (if 0 < b then .ninf else .pinf)
      | .nan => .ok .nan
  | .pinf =>
    match x with
    | .fin _ _ => .ok (.fin 0 0)
    | _ => .ok .nan
  | .ninf =>
    match x with
    | .fin _ _ => .ok (.fin 0 0)
    | _ => .ok .nan
  | .nan => .ok .nan

/-- Comparisons of Python floats (all false against `nan`, except `!=`
which is then true). -/
def pyNumCmp (op : CmpOp) (x y : PyNum) : Bool :=
  match op with
  | .lt => pyNumLt x y
  | .le => pyNumLt x y || pyNumEqB x y
  | .gt => pyNumLt y x
  | .ge => pyNumLt y x || pyNumEqB x y
  | .eq => pyNumEqB x y
  | .ne => !pyNumEqB x y

/-- Numeric coercion of an evaluation value (`bool` is numeric in
Python). -/
def numOf : PyEvalVal → Option PyNum
  | .num x => some x
  | .bool b => some (.fin (if b then 1 else 0) 0)
  | _ => none

/-- Identifier-start characters. -/
def isIdentStart (c : Char) : Bool := c.isAlpha || c = '_'

/-- Identifier-continuation characters. -/
def isIdentCh (c : Char) : Bool := c.isAlpha || isDigitCh c || c = '_'

/-- Skip whitespace between tokens. -/
def skipWs (l : List Char) : List Char := l.dropWhile isPyWs

/-- Consume an identifier token. -/
def takeIdent : List Char → Option (String × List Char)
  | c :: r =>
    if isIdentStart c then
      some (String.mk (c :: r.takeWhile isIdentCh),
        r.drop (r.takeWhile isIdentCh).length)
    else none
  | [] => none

/-- Consume a numeric literal token (`digits [. digits] [e[sign]digits]`,
at least one mantissa digit). -/
def takeNumberTok (l : List Char) : Option (PyNum × List Char) :=
  let intD := l.takeWhile isDigitCh
  let r2 := l.drop intD.length
  let fracAndRest : List Char × List Char :=
    match r2 with
    | '.' :: r3 =>
      (r3.takeWhile isDigitCh, r3.drop (r3.takeWhile isDigitCh).length)
    | _ => ([], r2)
  let fracD := fracAndRest.1
  let r4 := fracAndRest.2
  if intD = [] ∧ fracD = [] then none
  else
    let mkVal : Int → PyNum := fun e =>
      let mant : Int := (digitsToNat (intD ++ fracD) : Int)
      let e2 := e - (fracD.length : Int)
      if 0 ≤ e2 then .fin (mant * (tenPow e2.toNat : Int)) 0
      else .fin mant (tenPow (-e2).toNat - 1)
    match r4 with
    | 'e' :: r5 =>
      match r5 with
      | '+' :: r6 =>
        let ds := r6.takeWhile isDigitCh
        if ds = [] then none
        else some (mkVal (digitsToNat ds : Int), r6.drop ds.length)
      | '-' :: r6 =>
        let ds := r6.takeWhile isDigitCh
        if ds = [] then none
        else some (mkVal (-(digitsToNat ds : Int)), r6.drop ds.length)
      | r6 =>
        let ds := r6.takeWhile isDigitCh
        if ds = [] then none
        else some (mkVal (digitsToNat ds : Int), r6.drop ds.length)
    | 'E' :: r5 =>
      match r5 with
      | '+' :: r6 =>
        let ds := r6.takeWhile isDigitCh
        if ds = [] then none
        else some (mkVal (digitsToNat ds : Int), r6.drop ds.length)
      | '-' :: r6 =>
        let ds := r6.takeWhile isDigitCh
        if ds = [] then none
        else some (mkVal (-(digitsToNat ds : Int)), r6.drop ds.length)
      | r6 =>
        let ds := r6.takeWhile isDigitCh
        if ds = [] then none
        else some (mkVal (digitsToNat ds : Int), r6.drop ds.length)
    | _ => some (mkVal 0, r4)

mutual

/-- Full expression: a comparison. -/
def parseExprF : Nat → List Char → Option (PExpr × List Char)
  | 0, _ => none
  | fuel + 1, l => parseCmpF fuel l

/-- One optional comparison between arithmetic expressions. -/
def parseCmpF : Nat → List Char → Option (PExpr × List Char)
  | 0, _ => none
  | fuel + 1, l =>
    match parseAddF fuel l with
    | none => none
    | some (a, r) =>
      match skipWs r with
      | '<' :: '=' :: r2 =>
        match parseAddF fuel r2 with
        | some (b, r3) => some (.cmp .le a b, r3)
        | none => none
      | '>' :: '=' :: r2 =>
        match parseAddF fuel r2 with
        | some (b, r3) => some (.cmp .ge a b, r3)
        | none => none
      | '=' :: '=' :: r2 =>
        match parseAddF fuel r2 with
        | some (b, r3) => some (.cmp .eq a b, r3)
        | none => none
      | '!' :: '=' :: r2 =>
        match parseAddF fuel r2 with
        | some (b, r3) => some (.cmp .ne a b, r3)
        | none => none
      | '<' :: r2 =>
        match parseAddF fuel r2 with
        | some (b, r3) => some (.cmp .lt a b, r3)
        | none => none
      | '>' :: r2 =>
        match parseAddF fuel r2 with
        | some (b, r3) => some (.cmp .gt a b, r3)
        | none => none
      | _ => some (a, r)

/-- Left-associative additive chain. -/
def parseAddF : Nat → List Char → Option (PExpr × List Char)
  | 0, _ => none
  | fuel + 1, l =>
    match parseMulF fuel l with
    | none => none
    | some (a, r) => parseAddLoopF fuel a r

/-- Loop of `(+ term | - term)*`. -/
def parseAddLoopF : Nat → PExpr → List Char → Option (PExpr × List Char)
  | 0, _, _ => none
  | fuel + 1, a, l =>
    match skipWs l with
    | '+' :: r =>
      match parseMulF fuel r with
      | some (b, r2) => parseAddLoopF fuel (.add a b) r2
      | none => none
    | '-' :: r =>
      match parseMulF fuel r with
      | some (b, r2) => parseAddLoopF fuel (.sub a b) r2
      | none => none
    | _ => some (a, l)

/-- Left-associative multiplicative chain. -/
def parseMulF : Nat → List Char → Option (PExpr × List Char)
  | 0, _ => none
  | fuel + 1, l =>
    match parseUnaryF fuel l with
    | none => none
    | some (a, r) => parseMulLoopF fuel a r

/-- Loop of `(* factor | / factor)*`. -/
def parseMulLoopF : Nat → PExpr → List Char → Option (PExpr × List Char)
  | 0, _, _ => none
  | fuel + 1, a, l =>
    match skipWs l with
    | '*' :: r =>
      match parseUnaryF fuel r with
      | some (b, r2) => parseMulLoopF fuel (.mul a b) r2
      | none => none
    | '/' :: r =>
      match parseUnaryF fuel r with
      | some (b, r2) => parseMulLoopF fuel (.div a b) r2
      | none => none
    | _ => some (a, l)

/-- Unary plus and minus. -/
def parseUnaryF : Nat → List Char → Option (PExpr × List Char)
  | 0, _ => none
  | fuel + 1, l =>
    match skipWs l with
    | '-' :: r =>
      match parseUnaryF fuel r with
      | some (e, r2) => some (.neg e, r2)
      | none => none
    | '+' :: r =>
      match parseUnaryF fuel r with
      | some (e, r2) => some (.pos e, r2)
      | none => none
    | l2 =>
      match parseAtomF fuel l2 with
      | none => none
      | some (e, r) => parsePostfixF fuel e r

/-- Postfix loop: attribute access and calls. -/
def parsePostfixF : Nat → PExpr → List Char → Option (PExpr × List Char)
  | 0, _, _ => none
  | fuel + 1, e, l =>
    match skipWs l with
    | '.' :: r =>
      match takeIdent (skipWs r) with
      | some (f, r2) => parsePostfixF fuel (.attr e f) r2
      | none => none
    | '(' :: r =>
      match skipWs r with
      | ')' :: r2 => parsePostfixF fuel (.call e []) r2
      | _ =>
        match parseArgsF fuel [] r with
        | some (args, r2) => parsePostfixF fuel (.call e args) r2
        | none => none
    | _ => some (e, l)

/-- Comma-separated call arguments up to the closing parenthesis. -/
def parseArgsF : Nat → List PExpr → List Char →
    Option (List PExpr × List Char)
  | 0, _, _ => none
  | fuel + 1, acc, l =>
    match parseExprF fuel l with
    | none => none
    | some (e, r) =>
      match skipWs r with
      | ',' :: r2 => parseArgsF fuel (acc ++ [e]) r2
      | ')' :: r2 => some (acc ++ [e], r2)
      | _ => none

/-- Atoms: parenthesized expressions, string literals, numbers, names. -/
def parseAtomF : Nat → List Char → Option (PExpr × List Char)
  | 0, _ => none
  | fuel + 1, l0 =>
    match skipWs l0 with
    | '(' :: r =>
      match parseExprF fuel r with
      | none => none
      | some (e, r2) =>
        match skipWs r2 with
        | ')' :: r3 => some (e, r3)
        | _ => none
    | c :: r =>
      if c = squote ∨ c = '"' then
        let s := r.takeWhile (fun d => d ≠ c)
        match r.drop s.length with
        | _ :: r2 => some (.strlit (String.mk s), r2)
        | [] => none
      else if isDigitCh c ∨ c = '.' then
        match takeNumberTok (c :: r) with
        | some (x, r2) => some (.numlit x, r2)
        | none => none
      else
        match takeIdent (c :: r) with
        | some (s, r2) => some (.name s, r2)
        | none => none
    | [] => none

end

/-- Parse a whole formula string (the compilation step of `eval`); the
fuel bound exceeds the recursion depth of any expression of the input's
length. -/
def pyParseExpr (s : String) : Option PExpr :=
  match parseExprF (8 * s.data.length + 16) s.data with
  | some (e, r) => if skipWs r = [] then some e else none
  | none => none

/-- Builtin names the model resolves when a formula name is not one of
the fourteen variables (`eval` resolves unknown names against Python's
builtins; `__import__` is the representative the formula text needs to
reach arbitrary operations). -/
def builtinNames : List String := ["__import__"]

/-- Environment lookup. -/
def envFind (env : List (String × PyNum)) (s : String) : Option PyNum :=
  (env.find? (fun p => p.1 = s)).map (fun p => p.2)

mutual

/-- Evaluation of the modelled Python expression fragment, returning the
value together with the list of call operations performed (the effect
log; see the section comment). -/
def evalPy (env : List (String × PyNum)) :
    PExpr → Except PyExc (PyEvalVal × List String)
  | .numlit x => .ok (.num x, [])
  | .strlit s => .ok (.vstr s, [])
  | .name s =>
    match envFind env s with
    | some x => .ok (.num x, [])
    | none =>
      if s ∈ builtinNames then .ok (.obj s, []) else .error .nameError
  | .neg e => do
    let (v, eff) ← evalPy env e
    match numOf v with
    | some x => .ok (.num (pyNumNeg x), eff)
    | none => .error .typeError
  | .pos e => do
    let (v, eff) ← evalPy env e
    match numOf v with
    | some x => .ok (.num x, eff)
    | none => .error .typeError
  | .add a b => do
    let (va, ea) ← evalPy env a
    let (vb, eb) ← evalPy env b
    match numOf va, numOf vb with
    | some x, some y => .ok (.num (pyNumAdd x y), ea ++ eb)
    | _, _ =>
      match va, vb with
      | .vstr s, .vstr t => .ok (.vstr (s ++ t), ea ++ eb)
      | _, _ => .error .typeError
  | .sub a b => do
    let (va, ea) ← evalPy env a
    let (vb, eb) ← evalPy env b
    match numOf va, numOf vb with
    | some x, some y => .ok (.num (pyNumSub x y), ea ++ eb)
    | _, _ => .error .typeError
  | .mul a b => do
    let (va, ea) ← evalPy env a
    let (vb, eb) ← evalPy env b
    match numOf va, numOf vb with
    | some x, some y => .ok (.num (pyNumMul x y), ea ++ eb)
    | _, _ => .error .typeError
  | .div a b => do
    let (va, ea) ← evalPy env a
    let (vb, eb) ← evalPy env b
    match numOf va, numOf vb with
    | some x, some y => do
      let q ← pyNumDiv x y
      .ok (.num q, ea ++ eb)
    | _, _ => .error .typeError
  | .cmp op a b => do
    let (va, ea) ← evalPy env a
    let (vb, eb) ← evalPy env b
    match numOf va, numOf vb with
    | some x, some y => .ok (.bool (pyNumCmp op x y), ea ++ eb)
    | _, _ =>
      match va, vb with
      | .vstr s, .vstr t =>
        match op with
        | .lt => .ok (.bool (listLtChars s.data t.data), ea ++ eb)
        | .le => .ok (.bool (listLtChars s.data t.data || s == t),
            ea ++ eb)
        | .gt => .ok (.bool (listLtChars t.data s.data), ea ++ eb)
        | .ge => .ok (.bool (listLtChars t.data s.data || s == t),
            ea ++ eb)
        | .eq => .ok (.bool (s == t), ea ++ eb)
        | .ne => .ok (.bool (s != t), ea ++ eb)
      | _, _ =>
        match op with
        | .eq => .ok (.bool false, ea ++ eb)
        | .ne => .ok (.bool true, ea ++ eb)
        | _ => .error .typeError
  | .call f args => do
    let (vf, ef) ← evalPy env f
    let (_, eas) ← evalArgs env args
    match vf with
    | .obj d => .ok (.obj (d ++ "()"), ef ++ eas ++ [d])
    | _ => .error .typeError
  | .attr e field => do
    let (v, ef) ← evalPy env e
    match v with
    | .obj d => .ok (.obj (d ++ "." ++ field), ef)
    | _ => .error .attributeError

/-- Evaluation of call arguments, left to right. -/
def evalArgs (env : List (String × PyNum)) :
    List PExpr → Except PyExc (List PyEvalVal × List String)
  | [] => .ok ([], [])
  | e :: rest => do
    let (v, ef) ← evalPy env e
    let (vs, efs) ← evalArgs env rest
    .ok (v :: vs, ef ++ efs)

end

/-- Dict lookup for `PyVal` association lists (last binding wins). -/
def dictFindPy : List (String × PyVal) → String → Option PyVal
  | [], _ => none
  | p :: t, k =>
    match dictFindPy t k with
    | some v => some v
    | none => if p.1 = k then some p.2 else none

/-- Model of `d.get(key, default)`: defined on dicts, `AttributeError`
on anything else. -/
def pyGet (v : PyVal) (k : String) (default : PyVal) :
    Except PyExc PyVal :=
  match v with
  | .pdict es => .ok ((dictFindPy es k).getD default)
  | _ => .error .attributeError

/-- Python truthiness of the modelled values. -/
def pyFalsy : PyVal → Bool
  | .pynone => true
  | .pstr s => s.data.isEmpty
  | .pint n => n = 0
  | .pdict es => es.isEmpty

/-- Model of `float(x)` on a Python value. -/
def pyFloatOf (v : PyVal) : Except PyExc PyNum :=
  match v with
  | .pstr s =>
    match pyFloatOfChars s.data with
    | some x => .ok x
    | none => .error .valueError
  | .pint n => .ok (.fin n 0)
  | _ => .error .typeError

/-- Model of `string_time_to_seconds(x)` on a Python value: `.split` on
a non-string raises `AttributeError`. -/
def string_time_to_seconds_py (v : PyVal) : Except PyExc Int :=
  match v with
  | .pstr s => string_time_to_seconds_chars s.data
  | _ => .error .attributeError

/-- Exceptions the `except` clause of source line 482 catches. -/
def formulaCaught : PyExc → Bool
  | .keyError => true
  | .valueError => true
  | .typeError => true
  | .zeroDivisionError => true
  | .indexError => true
  | _ => false

/-- Try-block body of `execute_job_sort_formula` (source lines 457-481),
in source order: extract the server formula string, extract and coerce
the fourteen resource variables, then `eval` the formula over them.  The
result carries the evaluation's effect log. -/
def execute_job_sort_formula_body (server_data job_data : PyVal) :
    Except PyExc (List String × PyEvalVal) := do
  let server_dict ← pyGet server_data "Server" (.pdict [])
  if pyFalsy server_dict then .ok ([], .num (.fin 0 0))
  else do
    let first_server ←
      match server_dict with
      | .pdict es =>
        match es with
        | [] => .error .indexError
        | (k, v) :: _ => .ok ((dictFindPy es k).getD v)
      | _ => .error .attributeError
    let formula_val ← pyGet first_server "job_sort_formula" (.pstr "0")
    let rl ← pyGet job_data "Resource_List" (.pdict [])
    let base_score ← pyFloatOf (← pyGet rl "base_score" (.pint 0))
    let score_boost ← pyFloatOf (← pyGet rl "score_boost" (.pint 0))
    let enable_wfp ← pyFloatOf (← pyGet rl "enable_wfp" (.pint 0))
    let wfp_factor ← pyFloatOf (← pyGet rl "wfp_factor" (.pint 0))
    let eligible_time ←
      string_time_to_seconds_py
        (← pyGet job_data "eligible_time" (.pstr "0:0:0"))
    let walltime ←
      string_time_to_seconds_py (← pyGet rl "walltime" (.pstr "0:0:0"))
    let project_priority ← pyFloatOf (← pyGet rl "project_priority" (.pint 0))
    let nodect ← pyFloatOf (← pyGet rl "nodect" (.pint 0))
    let total_cpus ← pyFloatOf (← pyGet rl "total_cpus" (.pint 0))
    let enable_backfill ← pyFloatOf (← pyGet rl "enable_backfill" (.pint 0))
    let backfill_max ← pyFloatOf (← pyGet rl "backfill_max" (.pint 0))
    let backfill_factor ← pyFloatOf (← pyGet rl "backfill_factor" (.pint 0))
    let enable_fifo ← pyFloatOf (← pyGet rl "enable_fifo" (.pint 0))
    let fifo_factor ← pyFloatOf (← pyGet rl "fifo_factor" (.pint 0))
    let env : List (String × PyNum) :=
      [("base_score", base_score), ("score_boost", score_boost),
       ("enable_wfp", enable_wfp), ("wfp_factor", wfp_factor),
       ("eligible_time", .fin eligible_time 0),
       ("walltime", .fin walltime 0),
       ("project_priority", project_priority), ("nodect", nodect),
       ("total_cpus", total_cpus), ("enable_backfill", enable_backfill),
       ("backfill_max", backfill_max),
       ("backfill_factor", backfill_factor),
       ("enable_fifo", enable_fifo), ("fifo_factor", fifo_factor)]
    let formula_str ←
      match formula_val with
      | .pstr s => .ok s
      | _ => (.error .typeError : Except PyExc String)
    let ast ←
      match pyParseExpr formula_str with
      | some e => .ok e
      | none => (.error .syntaxError : Except PyExc PExpr)
    let (v, effs) ← evalPy env ast
    .ok (effs, v)

/-- Model of `execute_job_sort_formula(server_data, job_data)` (source
lines 446-484): run the body; the `except` of line 482 turns the caught
exception classes into the default score `0.0` and lets every other
exception propagate.  The first component is the effect log of the
evaluation (empty when the body failed). -/
def execute_job_sort_formula (server_data job_data : PyVal) :
    List String × Except PyExc PyEvalVal :=
  match execute_job_sort_formula_body server_data job_data with
  | .ok (effs, v) => (effs, .ok v)
  | .error e =>
    if formulaCaught e then ([], .ok (.num (.fin 0 0)))
    else ([], .error e)

/-- Arithmetic-only check on parsed formulas: no calls, no attribute
access, no string literals. -/
def restrictedOk : PExpr → Bool
  | .numlit _ => true
  | .strlit _ => false
  | .name _ => true
  | .neg e => restrictedOk e
  | .pos e => restrictedOk e
  | .add a b => restrictedOk a && restrictedOk b
  | .sub a b => restrictedOk a && restrictedOk b
  | .mul a b => restrictedOk a && restrictedOk b
  | .div a b => restrictedOk a && restrictedOk b
  | .cmp _ a b => restrictedOk a && restrictedOk b
  | .call _ _ => false
  | .attr _ _ => false

/-- Modelled from the spec (section 4.3 design note and section 9):
the restricted arithmetic-expression evaluator that implementations must
use in place of a general-purpose code evaluator — a small grammar of
`+ - * / ( )` and comparisons over named numeric variables, evaluated
against the variable mapping, rejecting any formula that contains a
call, attribute access or string literal, and thereby never executing
operations drawn from the formula text. -/
def restricted_formula_eval (s : String) (env : List (String × PyNum)) :
    Option PyEvalVal :=
  match pyParseExpr s with
  | none => none
  | some e =>
    if restrictedOk e then
      match evalPy env e with
      | .ok (v, _) => some v
      | .error _ => none
    else none

/-- Server data whose scheduler-supplied formula is the undefined name
`foo`. -/
def c3ServerNameErr : PyVal :=
  .pdict [("Server", .pdict [("s1",
    .pdict [("job_sort_formula", .pstr "foo")])])]

/-- Server data whose formula divides by zero. -/
def c3ServerDivZero : PyVal :=
  .pdict [("Server", .pdict [("s1",
    .pdict [("job_sort_formula", .pstr "1/0")])])]

/-- Claim C3: the claim states that `execute_job_sort_formula` never
propagates an exception and returns `0.0` on any failure of the formula.
The `except` clause of source line 482 catches only `KeyError`,
`ValueError`, `TypeError`, `ZeroDivisionError` and `IndexError`; a
formula referencing an undefined name — the most ordinary failure of a
scheduler-supplied formula, and squarely a "failure of the formula" —
raises `NameError`, which is not in that list and escapes the function,
contradicting the function's own fallback comment ("Return a default
score if formula evaluation fails") and the spec's "never abort".  A
division by zero, by contrast, is caught and yields `0.0` as claimed. -/
theorem c3_formula_name_error_escapes :
    (execute_job_sort_formula c3ServerNameErr (PyVal.pdict [])).2 =
      Except.error PyExc.nameError ∧
    (execute_job_sort_formula c3ServerDivZero (PyVal.pdict [])).2 =
      Except.ok (PyEvalVal.num (PyNum.fin 0 0)) := by decide

/-- Server data whose scheduler-supplied formula reaches `__import__`
and calls an attribute of the imported module. -/
def c2Server : PyVal :=
  .pdict [("Server", .pdict [("s1",
    .pdict [("job_sort_formula",
      .pstr "__import__('os').system('echo pwned')")])])]

/-- Claim C2: the claim states that the formula is evaluated only as a
restricted arithmetic expression over the fixed variables and that no
arbitrary operations drawn from the formula text are ever executed.
Source line 481 instead hands the text to Python's `eval`: on the
scheduler-controlled formula `__import__('os').system('echo pwned')`
the code resolves `__import__` from the builtins and performs the two
calls named by the formula (the model's effect log records them) and
returns their result instead of failing, while the restricted
arithmetic evaluator the spec mandates rejects that formula outright. -/
theorem c2_eval_executes_arbitrary_operations :
    (execute_job_sort_formula c2Server (PyVal.pdict [])).1 =
      ["__import__", "__import__().system"] ∧
    (execute_job_sort_formula c2Server (PyVal.pdict [])).2 =
      Except.ok (PyEvalVal.obj "__import__().system()") ∧
    restricted_formula_eval "__import__('os').system('echo pwned')" [] =
      none ∧
    restricted_formula_eval "base_score + eligible_time/3600"
      [("base_score", PyNum.fin 10 0), ("eligible_time", PyNum.fin 7200 0)]
      = some (PyEvalVal.num (PyNum.fin 43200 3599)) := by decide

/-! ## The row pipeline of `print_jobs` (source lines 660-870)

`print_jobs` turns the job snapshot into a list of row records: it
expands the queue filter through the routing map, parses the job-id
filter, builds one record per job inside a per-job `try` (lines
713-766), sorts by the requested field (768-809), and applies the
result limit (811-813).  The model below reproduces the data flow up to
the row list; the textual formatting and logging of lines 815-870 and
the optional `extra_columns` mechanism are outside the model
(`extra_columns = None` throughout, so the extra-column sort branch of
lines 782-784 is never taken).  `datetime.now()` of line 427 is the
`now` parameter. -/

/-- Model of `parse_pbs_time` (source lines 46-58) on a Python value:
a falsy argument raises `ValueError` at line 48; `strptime` on a truthy
non-string raises `TypeError`, which the `except ValueError` of line 52
does not catch. -/
def parse_pbs_time_py (v : PyVal) : Except PyExc PDateTime :=
  match v with
  | .pstr s => parse_pbs_time_chars s.data
  | _ => if pyFalsy v then .error .valueError else .error .typeError

/-- Digits of a `Nat`, zero-padded to width 2 (`%m`, `%d`, `%H`, `%M`
and the f-string field `{n:02d}` on a nonnegative value). -/
def pad2 (n : Nat) : List Char :=
  if n < 10 then '0' :: (toString n).data else (toString n).data

/-- The f-string field `{n:02d}` on an `Int`: the minus sign counts
toward the width. -/
def fmtInt2 (n : Int) : List Char :=
  let s := (toString n).data
  if s.length < 2 then '0' :: s else s

/-- `dt.strftime('%m/%d %H:%M')` (source line 390). -/
def strftimeCompact (dt : PDateTime) : String :=
  String.mk (pad2 dt.month ++ '/' :: pad2 dt.day ++ ' ' ::
    pad2 dt.hour ++ ':' :: pad2 dt.minute)

/-- Model of `format_time_display(time_str)` (source lines 368-372). -/
def format_time_display (v : PyVal) : PyVal :=
  if pyFalsy v ∨ pyValBeq v (.pstr "--") = true ∨
      pyValBeq v (.pstr "0:0:0") = true then .pstr "--" else v

/-- Model of `format_datetime_compact(datetime_str)` (source lines
374-393).  On a string the `except Exception` of line 391 catches every
parse failure and truncates to 15 characters.  On a truthy non-string
not equal to `'--'`, `parse_pbs_time` raises `TypeError`, the handler
runs, and there `len(datetime_str)` raises `TypeError` for an `int`
(propagating out of the function), succeeds for a `dict` (whose slice
`[:15]` then raises `TypeError` when the length exceeds 15, and which is
returned unchanged otherwise). -/
def format_datetime_compact_py (v : PyVal) : Except PyExc PyVal :=
  if pyFalsy v ∨ pyValBeq v (.pstr "--") = true then .ok (.pstr "--")
  else
    match v with
    | .pstr s =>
      match parse_pbs_time_chars s.data with
      | .ok dt => .ok (.pstr (strftimeCompact dt))
      | .error _ =>
        .ok (.pstr (if 15 < s.data.length then String.mk (s.data.take 15)
          else s))
    | .pint _ => .error .typeError
    | .pdict es => if 15 < es.length then .error .typeError else .ok v
    | .pynone => .ok (.pstr "--")

/-- Model of `format_submitted_time(qtime_str)` (source lines 395-397),
an alias for `format_datetime_compact`. -/
def format_submitted_time_py (v : PyVal) : Except PyExc PyVal :=
  format_datetime_compact_py v

/-- Exceptions caught by the `except` of source line 443. -/
def runtimeCaught : PyExc → Bool
  | .valueError => true
  | .typeError => true
  | .attributeError => true
  | _ => false

/-- `f"{hours:02d}:{minutes:02d}:{seconds:02d}"` over the floor
division and modulus of source lines 437-439. -/
def fmtElapsed (total : Int) : String :=
  String.mk (fmtInt2 (total.fdiv 3600) ++ ':' ::
    fmtInt2 ((total.emod 3600).fdiv 60) ++ ':' :: fmtInt2 (total.emod 60))

/-- Try-block body of `calculate_elapsed_runtime` (source lines
418-440): parse `stime`, then subtract it from `now` for a running job
or from the parsed `obittime` otherwise; naive datetimes subtract as
their timestamps. -/
def runtimeTryBody (now : PDateTime) (job state : PyVal) :
    Except PyExc String := do
  let stime ← pyGet job "stime" (.pstr "")
  if pyFalsy stime then .ok "--"
  else do
    let start_time ← parse_pbs_time_py stime
    if pyValBeq state (.pstr "R") then
      .ok (fmtElapsed (timestampOf now - timestampOf start_time))
    else do
      let obittime ← pyGet job "obittime" (.pstr "")
      if pyFalsy obittime then .ok "--"
      else do
        let end_time ← parse_pbs_time_py obittime
        .ok (fmtElapsed (timestampOf end_time - timestampOf start_time))

/-- Model of `calculate_elapsed_runtime(job)` (source lines 399-444):
the `job_state` lookup of line 409 sits outside the `try`, queued jobs
short-circuit to `'--'`, and the handler of line 443 turns
`ValueError`, `TypeError` and `AttributeError` from the body into
`'--'`. -/
def calculate_elapsed_runtime (now : PDateTime) (job : PyVal) :
    Except PyExc String := do
  let state ← pyGet job "job_state" (.pstr "")
  if pyValBeq state (.pstr "Q") then .ok "--"
  else
    match runtimeTryBody now job state with
    | .ok s => .ok s
    | .error e => if runtimeCaught e then .ok "--" else .error e

/-- Uppercase a character list (`state_filter.upper()`; the states are
ASCII). -/
def pyUpperChars (l : List Char) : List Char := l.map Char.toUpper

/-- The state filter test of source lines 730-733:
`set(state_filter.upper())` is a set of single characters, and `state
not in valid_states` is a plain `in` on it, so only a one-character
string state can pass. -/
def stateInSet (sf : String) (state : PyVal) : Bool :=
  match state with
  | .pstr s => (pyUpperChars sf.data).any (fun c => s.data == [c])
  | _ => false

/-- The lowercased substring filter `filt.lower() in v.lower()` of
source lines 740-743; `.lower()` on a non-string raises
`AttributeError`. -/
def lowerMemFilter (filt : String) (v : PyVal) : Except PyExc Bool :=
  match v with
  | .pstr s => .ok (substrChars (pyLowerChars filt.data)
      (pyLowerChars s.data))
  | _ => .error .attributeError

/-- One row record of the job table (the dict of source lines 747-758). -/
structure Row where
  jobid : String
  user : PyVal
  state : PyVal
  queue : PyVal
  nodes : PyVal
  score : PyEvalVal
  project : PyVal
  walltime : PyVal
  runtime : String
  submitted : PyVal
deriving DecidableEq

/-- Body of one iteration of the job loop (source lines 713-764): score
first, then the field extractions in source order, then the five
filters; `none` means the job was filtered out (`continue`), an
exception aborts the iteration.  The pure filter decisions are bound
early; only the filters actually reached can surface an
`AttributeError`, which the sequencing below preserves. -/
def job_row_extract (now : PDateTime) (server_data : PyVal)
    (state_filter queue_filter user_filter project_filter : Option String)
    (expanded_queue_set jobid_set : Option (List String))
    (jobid : String) (job : PyVal) : Except PyExc (Option Row) := do
  let score ← (execute_job_sort_formula server_data job).2
  let jobid_short := String.mk (jobid.data.takeWhile (fun c => c ≠ '.'))
  let vl ← pyGet job "Variable_List" (.pdict [])
  let user ← pyGet vl "PBS_O_LOGNAME" (.pstr "Unknown")
  let state ← pyGet job "job_state" (.pstr "Unknown")
  let queue ← pyGet job "queue" (.pstr "Unknown")
  let rln ← pyGet job "Resource_List" (.pdict [])
  let nodes ← pyGet rln "nodect" (.pint 0)
  let project ← pyGet job "project" (.pstr "Unknown")
  let rlw ← pyGet job "Resource_List" (.pdict [])
  let wraw ← pyGet rlw "walltime" (.pstr "--")
  let walltime := format_time_display wraw
  let runtime ← calculate_elapsed_runtime now job
  let qtime ← pyGet job "qtime" (.pstr "")
  let submitted ← format_submitted_time_py qtime
  let keepJobid : Bool :=
    match jobid_set with
    | some s => s.isEmpty || s.contains jobid_short
    | none => true
  let keepState : Bool :=
    match state_filter with
    | some sf =>
      if sf.data.isEmpty then true
      else if pyLower sf = "all" then true
      else stateInSet sf state
    | none => true
  let keepQueueE : Except PyExc Bool :=
    match queue_filter with
    | some qf =>
      if qf.data.isEmpty then .ok true
      else
        match expanded_queue_set with
        | some s =>
          match queue with
          | .pstr q => .ok (s.contains (pyLower q))
          | _ => .error .attributeError
        | none => lowerMemFilter qf queue
    | none => .ok true
  let keepUserE : Except PyExc Bool :=
    match user_filter with
    | some uf =>
      if uf.data.isEmpty then .ok true else lowerMemFilter uf user
    | none => .ok true
  let keepProjE : Except PyExc Bool :=
    match project_filter with
    | some pf =>
      if pf.data.isEmpty then .ok true else lowerMemFilter pf project
    | none => .ok true
  if keepJobid = false then .ok none
  else if keepState = false then .ok none
  else do
    let kq ← keepQueueE
    if kq = false then .ok none
    else do
      let ku ← keepUserE
      if ku = false then .ok none
      else do
        let kp ← keepProjE
        if kp = false then .ok none
        else .ok (some ⟨jobid_short, user, state, queue, nodes, score,
          project, walltime, runtime, submitted⟩)

/-- Survivors of the per-job `try`: a row only when extraction succeeded
and no filter rejected; a raised exception is logged and the job
skipped (source lines 765-766). -/
def rowOf? (x : Except PyExc (Option Row)) : Option Row :=
  match x with
  | .ok (some r) => some r
  | _ => none

/-- The job loop of source lines 712-766 over a snapshot given as an
association list (`jobs.items()`). -/
def build_job_list (now : PDateTime) (server_data : PyVal)
    (state_filter queue_filter user_filter project_filter : Option String)
    (expanded_queue_set jobid_set : Option (List String))
    (jobs : List (String × PyVal)) : List Row :=
  jobs.filterMap (fun p =>
    rowOf? (job_row_extract now server_data state_filter queue_filter
      user_filter project_filter expanded_queue_set jobid_set p.1 p.2))

/-- Numeric reading of a score key: Python orders `bool` with `float`
numerically. -/
def evalKeyNum : PyEvalVal → Option PyNum
  | .num x => some x
  | .bool b => some (.fin (if b then 1 else 0) 0)
  | _ => none

/-- Comparability of two score keys under Python `<`. -/
def evCmpOk (a b : PyEvalVal) : Bool :=
  match evalKeyNum a, evalKeyNum b with
  | some _, some _ => true
  | _, _ =>
    match a, b with
    | .vstr _, .vstr _ => true
    | _, _ => false

/-- Python `<` on score keys (cross-type cases are unreachable under
comparability). -/
def evLt (a b : PyEvalVal) : Bool :=
  match evalKeyNum a, evalKeyNum b with
  | some x, some y => pyNumLt x y
  | _, _ =>
    match a, b with
    | .vstr s, .vstr t => listLtChars s.data t.data
    | _, _ => false

/-- Comparability of two raw `PyVal` keys under Python `<` (only
same-type strings and integers order; `None` and dicts never do). -/
def pyValCmpOk : PyVal → PyVal → Bool
  | .pstr _, .pstr _ => true
  | .pint _, .pint _ => true
  | _, _ => false

/-- Python `<` on raw `PyVal` keys. -/
def pyValLt : PyVal → PyVal → Bool
  | .pstr a, .pstr b => listLtChars a.data b.data
  | .pint a, .pint b => decide (a < b)
  | _, _ => false

/-- Key of the `user`/`queue`/`project` sort branches:
`x[field].lower()`, `AttributeError` on a non-string. -/
def lowerKeyOf (v : PyVal) : Except PyExc (List Char) :=
  match v with
  | .pstr s => .ok (pyLowerChars s.data)
  | _ => .error .attributeError

/-- Key of the `jobid` sort branch: `int(x['jobid'])`, `ValueError`
when the short id is not an integer literal. -/
def intKeyOf (s : String) : Except PyExc Int :=
  match pyIntOfChars s.data with
  | some n => .ok n
  | none => .error .valueError

/-- Sequence a fallible map over a list, stopping at the first
exception (the decoration pass of `list.sort(key=...)`, which computes
every key before comparing any). -/
def mapExcept (f : α → Except PyExc β) : List α → Except PyExc (List β)
  | [] => .ok []
  | x :: xs =>
    match f x with
    | .error e => .error e
    | .ok y =>
      match mapExcept f xs with
      | .error e => .error e
      | .ok ys => .ok (y :: ys)

/-- Every pair of keys of the list is comparable. -/
def pairwiseComparK (cmpOk : κ → κ → Bool) : List κ → Bool
  | [] => true
  | x :: xs => xs.all (cmpOk x) && pairwiseComparK cmpOk xs

/-- Model of `job_list.sort(key=keyf, reverse=reverse)` for an
arbitrary key type: compute every key (a raised key exception
propagates), then sort stably by the key order; an incomparable key
pair raises `TypeError`, checked pairwise up front as for
`pySortByKey`. -/
def pySortKeyed (keyf : α → Except PyExc κ) (cmpOk : κ → κ → Bool)
    (klt : κ → κ → Bool) (reverse : Bool) (l : List α) :
    Except PyExc (List α) :=
  match mapExcept (fun r => (keyf r).map (fun k => (r, k))) l with
  | .error e => .error e
  | .ok pairs =>
    if pairwiseComparK cmpOk (pairs.map Prod.snd) then
      .ok ((sortStable (fun a b =>
        if reverse then klt b.2 a.2 else klt a.2 b.2) pairs).map
          Prod.fst)
    else .error .typeError

/-- The sort dispatch of source lines 768-809 (with
`extra_columns = None`, so the extra-column branch of lines 782-784 is
skipped): a falsy `sort_by` skips sorting, an unknown field logs a
warning and keeps the default order, and the three time-like fields go
through `convert_value_for_sorting` with the `reverse` flag passed to
both the key and the sort. -/
def sortRows (nowYear : Nat) (sort_by : Option String) (reverse : Bool)
    (rows : List Row) : Except PyExc (List Row) :=
  match sort_by with
  | none => .ok rows
  | some f =>
    if f.data.isEmpty then .ok rows
    else if f = "score" then
      pySortKeyed (fun r => .ok r.score) evCmpOk evLt reverse rows
    else if f = "state" then
      pySortKeyed (fun r => .ok r.state) pyValCmpOk pyValLt reverse rows
    else if f = "nodes" then
      pySortKeyed (fun r => .ok r.nodes) pyValCmpOk pyValLt reverse rows
    else if f = "user" then
      pySortKeyed (fun r => lowerKeyOf r.user) (fun _ _ => true)
        listLtChars reverse rows
    else if f = "queue" then
      pySortKeyed (fun r => lowerKeyOf r.queue) (fun _ _ => true)
        listLtChars reverse rows
    else if f = "project" then
      pySortKeyed (fun r => lowerKeyOf r.project) (fun _ _ => true)
        listLtChars reverse rows
    else if f = "jobid" then
      pySortKeyed (fun r => intKeyOf r.jobid) (fun _ _ => true)
        (fun a b => decide (a < b)) reverse rows
    else if f = "walltime" then
      pySortKeyed
        (fun r => .ok (convert_value_for_sorting nowYear r.walltime
          reverse)) sKeyComparable sKeyLt reverse rows
    else if f = "runtime" then
      pySortKeyed
        (fun r => .ok (convert_value_for_sorting nowYear
          (.pstr r.runtime) reverse)) sKeyComparable sKeyLt reverse rows
    else if f = "submitted" then
      pySortKeyed
        (fun r => .ok (convert_value_for_sorting nowYear r.submitted
          reverse)) sKeyComparable sKeyLt reverse rows
    else .ok rows

/-- The result limit of source lines 811-813: `if limit and limit > 0:
job_list = job_list[:limit]` — applied only for a truthy, strictly
positive limit. -/
def applyLimit (limit : Option Int) (l : List Row) : List Row :=
  match limit with
  | none => l
  | some n => if n ≠ 0 ∧ 0 < n then l.take n.toNat else l

/-- The routing-aware queue filter preparation of source lines 695-703:
for a truthy filter, expand it through the routing map and keep the
expansion only when nonempty.  The live `qstat_queues()` call feeding
`build_routing_map` is abstracted by the `routing_map` parameter. -/
def expanded_set (queue_filter : Option String)
    (routing_map : List (String × List String)) : Option (List String) :=
  match queue_filter with
  | none => none
  | some qf =>
    if qf.data.isEmpty then none
    else
      let expanded := expand_routed_queues qf routing_map
      if expanded.isEmpty then none else some expanded

/-- The job-id filter parsing of source lines 706-708: split on commas,
strip, drop empty tokens (a set, modelled as a list up to membership). -/
def jobid_set_of (jobid_filter : Option String) : Option (List String) :=
  match jobid_filter with
  | none => none
  | some jf =>
    if jf.data.isEmpty then none
    else some ((((splitOnChars ',' jf.data).map pyStripChars).filter
      (fun t => !t.isEmpty)).map String.mk)

/-- Rows produced before the limit: extract `Jobs`, return early on an
empty snapshot (source lines 689-692), build the records and sort. -/
def print_jobs_pre (now : PDateTime) (nowYear : Nat)
    (server_data job_data : PyVal)
    (routing_map : List (String × List String))
    (sort_by : Option String) (reverse : Bool)
    (state_filter queue_filter user_filter project_filter
      jobid_filter : Option String) : Except PyExc (List Row) :=
  match pyGet job_data "Jobs" (.pdict []) with
  | .error e => .error e
  | .ok jobsVal =>
    if pyFalsy jobsVal then .ok []
    else
      match jobsVal with
      | .pdict es =>
        sortRows nowYear sort_by reverse
          (build_job_list now server_data state_filter queue_filter
            user_filter project_filter
            (expanded_set queue_filter routing_map)
            (jobid_set_of jobid_filter) es)
      | _ => .error .attributeError

/-- The row list `print_jobs` formats and prints: the pre-limit rows
with the limit of lines 811-813 applied. -/
def print_jobs_rows (now : PDateTime) (nowYear : Nat)
    (server_data job_data : PyVal)
    (routing_map : List (String × List String))
    (sort_by : Option String) (reverse : Bool)
    (state_filter queue_filter user_filter project_filter
      jobid_filter : Option String) (limit : Option Int) :
    Except PyExc (List Row) :=
  Except.map (applyLimit limit)
    (print_jobs_pre now nowYear server_data job_data routing_map
      sort_by reverse state_filter queue_filter user_filter
      project_filter jobid_filter)

/-- The instant standing for `datetime.now()` in the concrete pipeline
runs below. -/
def pipeNow : PDateTime := ⟨2025, 1, 1, 0, 0, 0⟩

/-- A server snapshot whose single server carries no
`job_sort_formula` (the default formula `'0'` applies). -/
def pipeServer : PyVal :=
  PyVal.pdict [("Server", PyVal.pdict [("s1", PyVal.pdict [])])]

/-- A minimal well-formed queued job. -/
def pipeGoodJob : PyVal := PyVal.pdict [("job_state", PyVal.pstr "Q")]

/-- A malformed job record: a bare string where a dict is expected, so
the first attribute access of the extraction raises
`AttributeError`. -/
def pipeBadJob : PyVal := PyVal.pstr "oops"

/-- C9.  A per-job extraction failure affects only that job: whenever
the extraction of one job raises, the row list built from the whole
snapshot is exactly the rows of the jobs before it followed by the rows
of the jobs after it — the failing job is skipped and every remaining
job is still filtered, enriched, and emitted, so one malformed record
never aborts the rest of the snapshot (source lines 712-766). -/
theorem c9_per_job_failure_only_skips_that_job
    (now : PDateTime) (server_data : PyVal)
    (sf qf uf pf : Option String) (eqs jset : Option (List String))
    (xs ys : List (String × PyVal)) (bad : String × PyVal) (e : PyExc)
    (hbad : job_row_extract now server_data sf qf uf pf eqs jset
      bad.1 bad.2 = Except.error e) :
    build_job_list now server_data sf qf uf pf eqs jset
        (xs ++ bad :: ys) =
      build_job_list now server_data sf qf uf pf eqs jset xs ++
        build_job_list now server_data sf qf uf pf eqs jset ys := by
  unfold build_job_list
  rw [List.filterMap_append, List.filterMap_cons]
  simp [hbad, rowOf?]

set_option maxRecDepth 40000 in
/-- Witness for C9 on a concrete snapshot: the malformed middle job
raises `AttributeError`, and the built row list splits around it. -/
theorem c9_per_job_failure_only_skips_that_job_witness :
    job_row_extract pipeNow pipeServer none none none none none none
        "2.x" (PyVal.pstr "oops") = Except.error PyExc.attributeError ∧
    build_job_list pipeNow pipeServer none none none none none none
        ([("1.x", pipeGoodJob)] ++
          ("2.x", PyVal.pstr "oops") :: [("3.x", pipeGoodJob)]) =
      build_job_list pipeNow pipeServer none none none none none none
          [("1.x", pipeGoodJob)] ++
        build_job_list pipeNow pipeServer none none none none none none
          [("3.x", pipeGoodJob)] :=
  ⟨by decide,
    c9_per_job_failure_only_skips_that_job pipeNow pipeServer
      none none none none none none
      [("1.x", pipeGoodJob)] [("3.x", pipeGoodJob)]
      ("2.x", PyVal.pstr "oops") PyExc.attributeError (by decide)⟩

/-- C10.  The result limit truncates only a strictly positive limit:
with `limit = n > 0` the pipeline's rows are the first `n` rows of the
unlimited (already filtered and sorted) pipeline, and with `n ≤ 0`
(zero or negative, like `None`) the limit is ignored and every filtered
row is emitted (source lines 811-813). -/
theorem c10_limit_truncates_only_positive
    (now : PDateTime) (nowYear : Nat) (server_data job_data : PyVal)
    (routing_map : List (String × List String))
    (sort_by : Option String) (reverse : Bool)
    (sf qf uf pf jf : Option String) (n : Int) :
    (0 < n →
      print_jobs_rows now nowYear server_data job_data routing_map
          sort_by reverse sf qf uf pf jf (some n) =
        Except.map (fun l => List.take n.toNat l)
          (print_jobs_rows now nowYear server_data job_data routing_map
            sort_by reverse sf qf uf pf jf none)) ∧
    (n ≤ 0 →
      print_jobs_rows now nowYear server_data job_data routing_map
          sort_by reverse sf qf uf pf jf (some n) =
        print_jobs_rows now nowYear server_data job_data routing_map
          sort_by reverse sf qf uf pf jf none) := by
  constructor
  · intro hn
    unfold print_jobs_rows
    cases hx : print_jobs_pre now nowYear server_data job_data
        routing_map sort_by reverse sf qf uf pf jf with
    | error e => simp [Except.map]
    | ok l =>
      have hcond : n ≠ 0 ∧ 0 < n := ⟨by omega, hn⟩
      simp [Except.map, applyLimit, hcond]
  · intro hn
    unfold print_jobs_rows
    cases hx : print_jobs_pre now nowYear server_data job_data
        routing_map sort_by reverse sf qf uf pf jf with
    | error e => simp [Except.map]
    | ok l =>
      have hcond : ¬ (n ≠ 0 ∧ 0 < n) :=
        fun h => absurd h.2 (by omega)
      simp [Except.map, applyLimit, hcond]

/-- The job snapshot of the C10 witness: two well-formed queued jobs. -/
def pipeJobData : PyVal :=
  PyVal.pdict [("Jobs",
    PyVal.pdict [("1.x", pipeGoodJob), ("3.x", pipeGoodJob)])]

/-- Witness for C10 on a concrete two-job pipeline with `limit = 1`:
the limited run is the first row of the unlimited run. -/
theorem c10_limit_truncates_only_positive_witness :
    (0 : Int) < 1 ∧
    print_jobs_rows pipeNow 2025 pipeServer pipeJobData [] none false
        none none none none none (some 1) =
      Except.map (fun l => List.take (Int.toNat 1) l)
        (print_jobs_rows pipeNow 2025 pipeServer pipeJobData [] none
          false none none none none none none) :=
  ⟨by decide,
    (c10_limit_truncates_only_positive pipeNow 2025 pipeServer
      pipeJobData [] none false none none none none none 1).1
      (by decide)⟩
